import Mathlib

/-!
Verification development for the depth-to-geometry reconstruction core of the
Aether-forge repository.

The repository contains four generation variants of the core algorithm:

* `createMergedGeometry`   (src/components/Viewer3D.tsx, lines 181-346):
  planar displacement with UV/alpha edge tapering, optional back side merged
  into one buffer with a single shared vertex counter.
* `createVolumetricGeometry` (src/unnamed/part_002, lines 164-324):
  cylindrical wrap, alpha silhouette test, distance-based triangle filter.
* `createMeshFromData`     (src/unnamed/part_002, lines 489-582):
  planar, depth-channel darkness threshold, integer-stride downsampling.
* `createMeshFromDataAsync` (src/unnamed/part_003, lines 16-139):
  planar, alpha/depth combined threshold, row-chunked progressive loop that
  reports rounded percentage progress.

The embedding below is a shallow one over exact rational arithmetic (the
source uses JS doubles; every quantity appearing in the claims is produced by
exact arithmetic on small rationals, so ℚ is a faithful model on the inputs
considered).  Pixel buffers are modelled as total functions from grid
coordinates to 8-bit RGBA samples; the canvas resampling step
(`getImageData` after `drawImage` at the logical resolution) is the identity
on this representation, matching the source's treatment of the resampled
buffer as the ground truth.  `Math.sin`/`Math.cos` are abstracted as function
parameters `sinF cosF : ℚ → ℚ` whose argument is the angle measured in units
of π (the source's angles are rational multiples of π); theorems that need
the trigonometric identity take the Pythagorean law as a hypothesis.
`Math.sqrt` comparisons `sqrt d < 0.2` are embedded as `d < (1/5)^2`, which
is equivalent for the nonnegative radicands produced by squared distances.
-/

/-- One 8-bit RGBA sample, as read from a decoded raster buffer.
The source indexes a flat `Uint8ClampedArray` as `data[(y*w+x)*4 + c]`;
here a buffer is a function from `(x, y)` to the four channels. -/
structure RGBA where
  r : ℕ
  g : ℕ
  b : ℕ
  a : ℕ
deriving DecidableEq

/-- A raster buffer: `(x, y) ↦` RGBA sample. -/
abbrev Img : Type := ℕ → ℕ → RGBA

/-- One synthesized vertex: position (`px`,`py`,`pz`), vertex color
(`cr`,`cg`,`cb`) and UV (`u`,`v`), exactly the per-vertex data the source
pushes into its `vertices` / `colors` / `uvs` arrays.  Variants that push no
color attribute leave the color fields at 0. -/
structure Vert where
  px : ℚ
  py : ℚ
  pz : ℚ
  cr : ℚ
  cg : ℚ
  cb : ℚ
  u : ℚ
  v : ℚ
deriving DecidableEq

instance : Inhabited Vert :=
  ⟨{ px := 0, py := 0, pz := 0, cr := 0, cg := 0, cb := 0, u := 0, v := 0 }⟩

/-- State of the vertex-synthesis loop: the ordered vertex list (one entry
per `vertices.push`) and the two `Int32Array` index grids (`-1` is the
"no vertex" sentinel).  Single-sided variants only ever touch `gridF`.
`verts.length` plays the role of the source's `vertexCount` counter. -/
structure SynthState where
  verts : List Vert
  gridF : ℕ → ℤ
  gridB : ℕ → ℤ

/-- The initial state: empty vertex list, both grids filled with `-1`
(`new Int32Array(w * h).fill(-1)`). -/
def initState : SynthState :=
  { verts := [], gridF := fun _ => -1, gridB := fun _ => -1 }

/-- Pointwise update of an index grid (`grid[i] = val`). -/
def setAt (g : ℕ → ℤ) (i : ℕ) (val : ℤ) : ℕ → ℤ :=
  fun j => if j = i then val else g j

/-- The body of `addVertex` in `createMergedGeometry` (and the inlined
equivalent in the other variants): push the vertex data and record the
pre-increment `vertexCount` in the side's grid at linear cell index `cell`. -/
def pushVert (st : SynthState) (cell : ℕ) (isBack : Bool) (vx : Vert) : SynthState :=
  { verts := st.verts ++ [vx]
  , gridF := if isBack then st.gridF else setAt st.gridF cell (st.verts.length : ℤ)
  , gridB := if isBack then setAt st.gridB cell (st.verts.length : ℤ) else st.gridB }

/-- A guarded vertex-synthesis step: if the cell passes the variant's
visibility test, synthesize its vertex and record its index; otherwise leave
the state unchanged (the source's `continue` / failed `if`). -/
def guardedPush (vis : ℕ → Bool) (mk : ℕ → Vert) (isBack : Bool)
    (st : SynthState) (k : ℕ) : SynthState :=
  if vis k then pushVert st k isBack (mk k) else st

/-- Linearisation of the source's row-major double loop
(`for y in [0,h) for x in [0,w)`): cell `k` is `(x, y) = (k % w, k / w)`,
and `k` is also the cell's index `y*w + x` into the grids. -/
def synthFold (step : SynthState → ℕ → SynthState) (n : ℕ) : SynthState :=
  (List.range n).foldl step initState

/-- JavaScript `Math.round` on the rationals that occur here
(round half away from zero equals `⌊q + 1/2⌋` on nonnegative inputs, and the
source only rounds nonnegative quantities). -/
def jsRound (q : ℚ) : ℤ := ⌊q + 1/2⌋

/-! ## Face triangulation (shared shape of all four variants)

Every variant walks each 2×2 block `(x,y),(x+1,y),(x,y+1),(x+1,y+1)` of the
grid, and emits two triangles (six indices, in a variant-specific winding
`emit`) only when all four grid entries are valid (`≠ -1`) and the variant's
additional geometric filter `keep` accepts the block. -/

/-- The per-block body of the triangulation loop. -/
def blockTris (w : ℕ) (grid : ℕ → ℤ) (keep : ℤ → ℤ → ℤ → ℤ → Bool)
    (emit : ℤ → ℤ → ℤ → ℤ → List ℤ) (x y : ℕ) : List ℤ :=
  let a := grid (y * w + x)
  let b := grid (y * w + (x + 1))
  let c := grid ((y + 1) * w + x)
  let d := grid ((y + 1) * w + (x + 1))
  if a ≠ -1 ∧ b ≠ -1 ∧ c ≠ -1 ∧ d ≠ -1 then
    if keep a b c d then emit a b c d else []
  else []

/-- The blocks visited by the triangulation loop, in source order
(`for y in [0,h-1) for x in [0,w-1)`). -/
def blockList (w h : ℕ) : List (ℕ × ℕ) :=
  (List.range (h - 1)).flatMap (fun y => (List.range (w - 1)).map (fun x => (x, y)))

/-- The full triangle index stream of one side. -/
def triangulate (w h : ℕ) (grid : ℕ → ℤ) (keep : ℤ → ℤ → ℤ → ℤ → Bool)
    (emit : ℤ → ℤ → ℤ → ℤ → List ℤ) : List ℤ :=
  (blockList w h).flatMap (fun p => blockTris w grid keep emit p.1 p.2)

/-! ## Variant 1: `createMergedGeometry` (src/components/Viewer3D.tsx)

Planar displacement, taper = `min(1, min(distU,distV)*taperStrength) * (alpha/255)`,
`z = (dVal * displacementScale * 0.5) * finalTaper`; front and back cells are
interleaved in one loop sharing a single `vertexCount`. -/

/-- Inputs of `createMergedGeometry` after decoding and resampling:
logical resolution `w × h` (the source fixes `w = GEOMETRY_RESOLUTION = 300`
and `h = Math.round(w / aspect)`; both are kept as parameters so the claims'
resolutions can be instantiated), the front color/depth buffers, the optional
back pair, the displacement scale and the TripoSR flag. -/
structure MergedParams where
  w : ℕ
  h : ℕ
  aspect : ℚ
  scale : ℚ
  isTripo : Bool
  fColor : Img
  fDepth : Img
  back : Option (Img × Img)

/-- `taperStrength = isTripoMode ? 8.0 : 4.0`. -/
def taperStrength (isTripo : Bool) : ℚ := if isTripo then 8 else 4

/-- Front-cell visibility: `fAlpha > 10`. -/
def mergedFrontVis (p : MergedParams) (k : ℕ) : Bool :=
  decide (10 < (p.fColor (k % p.w) (k / p.w)).a)

/-- The front vertex of cell `k`, exactly as computed in the source's loop
body (`MESH_SCALE = 4`). -/
def mergedFrontVert (p : MergedParams) (k : ℕ) : Vert :=
  let x := k % p.w
  let y := k / p.w
  let pix := p.fColor x y
  let dpx := p.fDepth x y
  let u : ℚ := (x : ℚ) / ((p.w : ℚ) - 1)
  let v : ℚ := 1 - (y : ℚ) / ((p.h : ℚ) - 1)
  let posX : ℚ := (u - 1/2) * 4
  let posY : ℚ := (v - 1/2) * 4 / p.aspect
  let distU : ℚ := min u (1 - u) * 2
  let distV : ℚ := min v (1 - v) * 2
  let alphaFactor : ℚ := (pix.a : ℚ) / 255
  let geoTaper : ℚ := min 1 (min distU distV * taperStrength p.isTripo)
  let finalTaper : ℚ := geoTaper * alphaFactor
  let dVal : ℚ := (dpx.r : ℚ) / 255
  let z : ℚ := (dVal * p.scale * (1/2)) * finalTaper
  { px := posX, py := posY, pz := z
  , cr := (pix.r : ℚ) / 255, cg := (pix.g : ℚ) / 255, cb := (pix.b : ℚ) / 255
  , u := u, v := v }

/-- Back-cell visibility: `bAlpha > 10` (only meaningful when a back pair is
present). -/
def mergedBackVis (p : MergedParams) (k : ℕ) : Bool :=
  match p.back with
  | none => false
  | some (bColor, _) => decide (10 < (bColor (k % p.w) (k / p.w)).a)

/-- The back vertex of cell `k`: X is mirrored (`bPosX = -(bU-0.5)*MESH_SCALE`)
and Z is negated. -/
def mergedBackVert (p : MergedParams) (k : ℕ) : Vert :=
  match p.back with
  | none => mergedFrontVert p k
  | some (bColor, bDepth) =>
    let x := k % p.w
    let y := k / p.w
    let pix := bColor x y
    let dpx := bDepth x y
    let bU : ℚ := (x : ℚ) / ((p.w : ℚ) - 1)
    let v : ℚ := 1 - (y : ℚ) / ((p.h : ℚ) - 1)
    let bPosX : ℚ := -(bU - 1/2) * 4
    let posY : ℚ := (v - 1/2) * 4 / p.aspect
    let bDistU : ℚ := min bU (1 - bU) * 2
    let bDistV : ℚ := min v (1 - v) * 2
    let bAlphaFactor : ℚ := (pix.a : ℚ) / 255
    let bGeoTaper : ℚ := min 1 (min bDistU bDistV * taperStrength p.isTripo)
    let bFinalTaper : ℚ := bGeoTaper * bAlphaFactor
    let dVal : ℚ := (dpx.r : ℚ) / 255
    let z : ℚ := -(dVal * p.scale * (1/2)) * bFinalTaper
    { px := bPosX, py := posY, pz := z
    , cr := (pix.r : ℚ) / 255, cg := (pix.g : ℚ) / 255, cb := (pix.b : ℚ) / 255
    , u := bU, v := v }

/-- One iteration of the merged loop body: the guarded front `addVertex`,
then (when a back pair was loaded) the guarded back `addVertex`. -/
def mergedStep (p : MergedParams) (st : SynthState) (k : ℕ) : SynthState :=
  let st1 := guardedPush (mergedFrontVis p) (mergedFrontVert p) false st k
  match p.back with
  | none => st1
  | some _ => guardedPush (mergedBackVis p) (mergedBackVert p) true st1 k

/-- The complete vertex-synthesis pass of `createMergedGeometry`. -/
def mergedSynth (p : MergedParams) : SynthState :=
  synthFold (mergedStep p) (p.h * p.w)

/-- Front-side winding: `addFace(a,d,b); addFace(d,c,b)`. -/
def mergedFrontEmit (a b c d : ℤ) : List ℤ := [a, d, b, d, c, b]

/-- Back-side winding (reversed): `addFace(a,b,d); addFace(d,c,b)`. -/
def mergedBackEmit (a b c d : ℤ) : List ℤ := [a, b, d, d, c, b]

/-- The front triangulation pass. -/
def mergedFrontIndices (p : MergedParams) : List ℤ :=
  triangulate p.w p.h (mergedSynth p).gridF (fun _ _ _ _ => true) mergedFrontEmit

/-- The back triangulation pass (`if (bColorData) { ... }`). -/
def mergedBackIndices (p : MergedParams) : List ℤ :=
  match p.back with
  | none => []
  | some _ =>
    triangulate p.w p.h (mergedSynth p).gridB (fun _ _ _ _ => true) mergedBackEmit

/-- The final index buffer: front stream followed by back stream. -/
def mergedIndices (p : MergedParams) : List ℤ :=
  mergedFrontIndices p ++ mergedBackIndices p

/-- Number of vertices in the produced geometry buffer. -/
def mergedVertexCount (p : MergedParams) : ℕ := (mergedSynth p).verts.length

/-- Number of front-side vertices (cells recorded in the front grid). -/
def mergedFrontCount (p : MergedParams) : ℕ :=
  ((List.range (p.h * p.w)).filter (fun k => (mergedSynth p).gridF k ≠ -1)).length

/-- Maximum Z coordinate over all synthesized vertices (0 for an empty
buffer; every Z in the inputs considered is nonnegative). -/
def mergedMaxZ (p : MergedParams) : ℚ :=
  ((mergedSynth p).verts.map Vert.pz).foldl max 0

/-! ## Variant 2: `createVolumetricGeometry` (src/unnamed/part_002, lines 164-324)

Cylindrical wrap: `theta = (u-0.5)*0.9π + (isBack ? π : 0)`,
`r = radiusBase*0.5 + dVal*displacementScale*0.6`,
`(vx, vy, vz) = (r·sin θ, (v-0.5)*4, r·cos θ)`; silhouette test `alpha < 50`;
triangles additionally filtered by `distAB < 0.2 && distAC < 0.2`. -/

/-- Inputs of `createVolumetricGeometry` after decoding and resampling.
`sinF`/`cosF` model `Math.sin`/`Math.cos`, taking the angle in units of π. -/
structure VolParams where
  w : ℕ
  h : ℕ
  scale : ℚ
  isBack : Bool
  colorData : Img
  depthData : Img
  sinF : ℚ → ℚ
  cosF : ℚ → ℚ

/-- The radial coordinate computed per cell:
`r = (radiusBase * 0.5) + (dVal * displacementScale * 0.6)` with
`radiusBase = 0.5` and `dVal = depth/255`.  Note it depends only on the
sampled depth and the scale, not on the cell's UV position. -/
def volRadius (depth : ℕ) (scale : ℚ) : ℚ :=
  ((1/2 : ℚ) * (1/2)) + ((depth : ℚ) / 255) * scale * (6/10)

/-- The angular coordinate in units of π:
`theta = (u - 0.5) * (0.9π) + (isBack ? π : 0)`. -/
def volThetaOverPi (u : ℚ) (isBack : Bool) : ℚ :=
  (u - 1/2) * (9/10) + (if isBack then 1 else 0)

/-- Cell visibility: the source skips `alpha < 50`. -/
def volVis (p : VolParams) (k : ℕ) : Bool :=
  decide (¬ (p.colorData (k % p.w) (k / p.w)).a < 50)

/-- The vertex of cell `k` of the cylindrical variant (`heightScale = 4.0`). -/
def volVert (p : VolParams) (k : ℕ) : Vert :=
  let x := k % p.w
  let y := k / p.w
  let pix := p.colorData x y
  let dpx := p.depthData x y
  let u : ℚ := (x : ℚ) / ((p.w : ℚ) - 1)
  let v : ℚ := 1 - (y : ℚ) / ((p.h : ℚ) - 1)
  let r : ℚ := volRadius dpx.r p.scale
  let t : ℚ := volThetaOverPi u p.isBack
  { px := r * p.sinF t, py := (v - 1/2) * 4, pz := r * p.cosF t
  , cr := (pix.r : ℚ) / 255, cg := (pix.g : ℚ) / 255, cb := (pix.b : ℚ) / 255
  , u := u, v := v }

/-- The complete vertex-synthesis pass of `createVolumetricGeometry`. -/
def volSynth (p : VolParams) : SynthState :=
  synthFold (guardedPush (volVis p) (volVert p) false) (p.h * p.w)

/-- Squared Euclidean distance between two synthesized vertex positions. -/
def dist2 (v1 v2 : Vert) : ℚ :=
  (v1.px - v2.px) ^ 2 + (v1.py - v2.py) ^ 2 + (v1.pz - v2.pz) ^ 2

/-- The degenerate-triangle filter: `vA.distanceTo(vB) < 0.2 &&
vA.distanceTo(vC) < 0.2`, embedded on squared distances (equivalent, as both
sides are nonnegative).  The source reads `vertices[a*3..]`; here the indices
recorded in the grid address the vertex list. -/
def volKeep (verts : List Vert) (a b c _d : ℤ) : Bool :=
  let vA := verts.getD a.toNat default
  let vB := verts.getD b.toNat default
  let vC := verts.getD c.toNat default
  decide (dist2 vA vB < (1/5) ^ 2 ∧ dist2 vA vC < (1/5) ^ 2)

/-- Winding of the cylindrical variant: `indices.push(a,d,b); indices.push(a,c,d)`. -/
def volEmit (a b c d : ℤ) : List ℤ := [a, d, b, a, c, d]

/-- The triangle index stream of `createVolumetricGeometry`. -/
def volIndices (p : VolParams) : List ℤ :=
  triangulate p.w p.h (volSynth p).gridF (volKeep (volSynth p).verts) volEmit

/-! ## Variant 3: `createMeshFromData` (src/unnamed/part_002, lines 489-582)

Planar, synchronous.  Downsamples the source raster with integer stride
`step = 4`; the visibility test reads ONLY the depth buffer's red channel
(`r < threshold` with `threshold = 20` skips the cell) — the color image's
alpha is never sampled.  No color attribute is pushed. -/

/-- Inputs of `createMeshFromData`: the decoded color image (the source reads
only its `width`/`height`; its pixels — in particular its alpha channel — are
never sampled), the decoded depth buffer, and the displacement scale. -/
structure MeshDataParams where
  width : ℕ
  height : ℕ
  colorImg : Img
  depthImg : Img
  scale : ℚ

/-- Logical grid width `w = Math.floor(width / step)` with `step = 4`. -/
def meshDataW (p : MeshDataParams) : ℕ := p.width / 4

/-- Logical grid height `h = Math.floor(height / step)`. -/
def meshDataH (p : MeshDataParams) : ℕ := p.height / 4

/-- Cell visibility: `r < threshold` (20) skips; the red channel of the depth
pixel at `(x*step, y*step)`. -/
def meshDataVis (p : MeshDataParams) (k : ℕ) : Bool :=
  decide (¬ (p.depthImg ((k % meshDataW p) * 4) ((k / meshDataW p) * 4)).r < 20)

/-- The vertex of cell `k` of `createMeshFromData`
(`vz = (r/255) * displacementScale`; no color attribute). -/
def meshDataVert (p : MeshDataParams) (k : ℕ) : Vert :=
  let w := meshDataW p
  let h := meshDataH p
  let x := k % w
  let y := k / w
  let r := (p.depthImg (x * 4) (y * 4)).r
  let u : ℚ := (x : ℚ) / ((w : ℚ) - 1)
  let v : ℚ := 1 - (y : ℚ) / ((h : ℚ) - 1)
  { px := (u - 1/2) * 4
  , py := (v - 1/2) * 4 * ((p.height : ℚ) / (p.width : ℚ))
  , pz := ((r : ℚ) / 255) * p.scale
  , cr := 0, cg := 0, cb := 0
  , u := u, v := v }

/-- The complete vertex-synthesis pass of `createMeshFromData`. -/
def meshDataSynth (p : MeshDataParams) : SynthState :=
  synthFold (guardedPush (meshDataVis p) (meshDataVert p) false)
    (meshDataH p * meshDataW p)

/-- Winding of both planar downsampling variants:
`indices.push(a,c,b); indices.push(b,c,d)`. -/
def meshDataEmit (a b c d : ℤ) : List ℤ := [a, c, b, b, c, d]

/-- The triangle index stream of `createMeshFromData`. -/
def meshDataIndices (p : MeshDataParams) : List ℤ :=
  triangulate (meshDataW p) (meshDataH p) (meshDataSynth p).gridF
    (fun _ _ _ _ => true) meshDataEmit

/-! ## Variant 4: `createMeshFromDataAsync` (src/unnamed/part_003, lines 16-139)

Planar, progressive.  Stride `step = 2`; background test
`alpha < 50 || (alpha > 250 && depthVal < 20)`; `vz = depthVal/255` (the
displacement scale is applied later by scaling the host mesh, not baked into
the buffer).  The loop runs in chunks of `CHUNK_SIZE = 50` rows, reporting
`Math.round((y / h) * 100)` after each chunk; the chunk boundaries only
affect scheduling and progress reports, the per-cell work and its order are
identical to the synchronous nested loop, so the geometry is embedded as the
same row-major fold and the progress stream is modelled separately below. -/

/-- Inputs of `createMeshFromDataAsync`. -/
structure AsyncParams where
  width : ℕ
  height : ℕ
  colorImg : Img
  depthImg : Img

/-- Logical grid width `w = Math.floor(width / step)` with `step = 2`. -/
def asyncW (p : AsyncParams) : ℕ := p.width / 2

/-- Logical grid height `h = Math.floor(height / step)`. -/
def asyncH (p : AsyncParams) : ℕ := p.height / 2

/-- Cell visibility: the negation of
`isBackground = alpha < 50 || (alpha > 250 && depthVal < 20)`. -/
def asyncVis (p : AsyncParams) (k : ℕ) : Bool :=
  let x := (k % asyncW p) * 2
  let y := (k / asyncW p) * 2
  let alpha := (p.colorImg x y).a
  let depthVal := (p.depthImg x y).r
  decide (¬ (alpha < 50 ∨ (250 < alpha ∧ depthVal < 20)))

/-- The vertex of cell `k` of `createMeshFromDataAsync`
(raw normalized depth in Z; no color attribute). -/
def asyncVert (p : AsyncParams) (k : ℕ) : Vert :=
  let w := asyncW p
  let h := asyncH p
  let x := k % w
  let y := k / w
  let depthVal := (p.depthImg (x * 2) (y * 2)).r
  let u : ℚ := (x : ℚ) / ((w : ℚ) - 1)
  let v : ℚ := 1 - (y : ℚ) / ((h : ℚ) - 1)
  { px := (u - 1/2) * 4
  , py := (v - 1/2) * 4 * ((p.height : ℚ) / (p.width : ℚ))
  , pz := (depthVal : ℚ) / 255
  , cr := 0, cg := 0, cb := 0
  , u := u, v := v }

/-- The complete vertex-synthesis pass of `createMeshFromDataAsync`. -/
def asyncSynth (p : AsyncParams) : SynthState :=
  synthFold (guardedPush (asyncVis p) (asyncVert p) false)
    (asyncH p * asyncW p)

/-- The triangle index stream of `createMeshFromDataAsync` (same winding as
`createMeshFromData`). -/
def asyncIndices (p : AsyncParams) : List ℤ :=
  triangulate (asyncW p) (asyncH p) (asyncSynth p).gridF
    (fun _ _ _ _ => true) meshDataEmit

/-- The sequence of values handed to the progress observer by the chunked
loop of `createMeshFromDataAsync`: each chunk advances
`y := min(y + CHUNK_SIZE, h)` (`CHUNK_SIZE = 50`), then reports
`Math.round((y / h) * 100)`, and recurses while `y < h`.  `fuel` is an
embedding artifact bounding the recursion depth; `h + 1` units always
suffice, since `y` strictly increases on every recursive call. -/
def asyncReportsAux : ℕ → ℕ → ℕ → List ℤ
  | 0, _, _ => []
  | fuel + 1, y, h =>
    let yNext := min (y + 50) h
    let rep := jsRound (((yNext : ℚ) / (h : ℚ)) * 100)
    if yNext < h then rep :: asyncReportsAux fuel yNext h else [rep]

/-- All progress values reported for a grid of `h` rows. -/
def asyncReports (h : ℕ) : List ℤ := asyncReportsAux (h + 1) 0 h

/-- A grid is well-formed for `n` vertices when every entry is the sentinel
or a valid vertex index. -/
def GridOK (g : ℕ → ℤ) (n : ℕ) : Prop :=
  ∀ i, g i = -1 ∨ (0 ≤ g i ∧ g i < (n : ℤ))

/-- Both index grids of a synthesis state are well-formed for its vertex
count. -/
def StateOK (st : SynthState) : Prop :=
  GridOK st.gridF st.verts.length ∧ GridOK st.gridB st.verts.length

/-- No vertex index is recorded in both grids: each `addVertex` call consumes
a fresh counter value for exactly one side. -/
def Disjointed (st : SynthState) : Prop :=
  ∀ i j, st.gridF i ≠ -1 → st.gridB j ≠ -1 → st.gridF i ≠ st.gridB j

/-- Two vertices that agree except that Z is rescaled by `r`. -/
def ScaledVert (r : ℚ) (v1 v2 : Vert) : Prop :=
  v1.px = v2.px ∧ v1.py = v2.py ∧ v2.pz = r * v1.pz ∧
  v1.cr = v2.cr ∧ v1.cg = v2.cg ∧ v1.cb = v2.cb ∧ v1.u = v2.u ∧ v1.v = v2.v

/-- Two synthesis states that agree on both index grids, with pairwise
Z-rescaled vertex lists. -/
def ScaledState (r : ℚ) (s1 s2 : SynthState) : Prop :=
  (∀ i, s1.gridF i = s2.gridF i) ∧ (∀ i, s1.gridB i = s2.gridB i) ∧
  List.Forall₂ (ScaledVert r) s1.verts s2.verts

/-! ## Promise wiring of the loaders (error propagation)

`createMergedGeometry` builds `promises = [loadImg(front), loadImg(frontDepth)]`,
appends the two back loads only when BOTH back source strings are provided
(`if (backImgSrc && backDepthSrc)`), and then calls
`Promise.all(promises).then(handler)` with a fulfillment handler only — there
is no rejection handler and no `.catch` — so when any load rejects, neither
`resolve` nor `reject` of the outer promise is ever called and the returned
promise stays pending forever.  `createVolumetricGeometry` instead wires each
image element's `onerror` to `handleError`, which calls `reject(...)`. -/

/-- Outcome of attempting to decode one source image. -/
inductive LoadResult where
  | ok (img : Img)
  | failed

/-- The observable fate of a JS promise: fulfilled with a value, rejected,
or never settled. -/
inductive POutcome (α : Type) where
  | resolved (a : α)
  | rejected
  | pending

/-- The promise returned by `createMergedGeometry`.  When every requested
load succeeds, the processing body runs inside
`try { ... resolve(geometry) } catch (e) { reject(e) }`; on decoded inputs
`getImageData` succeeds, so the body resolves with the assembled buffer.
When any load fails, `Promise.all` rejects and the rejection is unhandled:
the outer promise never settles (`pending`). -/
def mergedCreate (front frontDepth : LoadResult)
    (backImgSrc backDepthSrc : Option LoadResult)
    (w h : ℕ) (aspect scale : ℚ) (isTripo : Bool) :
    POutcome (List Vert × List ℤ) :=
  let backPair : Option (LoadResult × LoadResult) :=
    match backImgSrc, backDepthSrc with
    | some bi, some bd => some (bi, bd)
    | _, _ => none
  match front with
  | .failed => .pending
  | .ok fc =>
    match frontDepth with
    | .failed => .pending
    | .ok fd =>
      match backPair with
      | none =>
        let p : MergedParams := ⟨w, h, aspect, scale, isTripo, fc, fd, none⟩
        .resolved ((mergedSynth p).verts, mergedIndices p)
      | some (.ok bc, .ok bd) =>
        let p : MergedParams := ⟨w, h, aspect, scale, isTripo, fc, fd, some (bc, bd)⟩
        .resolved ((mergedSynth p).verts, mergedIndices p)
      | some _ => .pending

/-- The promise returned by `createVolumetricGeometry`: a failed load fires
`handleError`, which rejects; two successful loads run `process`, which
resolves. -/
def volCreate (image depth : LoadResult) (w h : ℕ) (scale : ℚ) (isBack : Bool)
    (sinF cosF : ℚ → ℚ) : POutcome (List Vert × List ℤ) :=
  match image, depth with
  | .ok ci, .ok di =>
    let p : VolParams := ⟨w, h, scale, isBack, ci, di, sinF, cosF⟩
    .resolved ((volSynth p).verts, volIndices p)
  | _, _ => .rejected

/-- Squared distance of a vertex from the vertical (Y) axis — the squared
radial displacement of a cylindrical-mode vertex. -/
def sqRadial (v : Vert) : ℚ := v.px ^ 2 + v.pz ^ 2

/-! ## Concrete inputs for witnesses and counterexamples -/

/-- A fully opaque white pixel. -/
def whiteOpaque : RGBA := ⟨255, 255, 255, 255⟩

/-- A fully opaque white raster. -/
def imgWhite : Img := fun _ _ => whiteOpaque

/-- A fully transparent raster. -/
def imgClear : Img := fun _ _ => ⟨255, 255, 255, 0⟩

/-- The spec's example depth: values `[0, 85, 170, 255]` along each row. -/
def depthRamp : Img := fun x _ => ⟨[0, 85, 170, 255].getD x 0, 0, 0, 255⟩

/-- A raster whose red (depth) channel is 255 everywhere. -/
def depthFull : Img := fun _ _ => ⟨255, 0, 0, 255⟩

/-- A raster whose red (depth) channel is 0 everywhere. -/
def depthZero : Img := fun _ _ => ⟨0, 0, 0, 255⟩

/-- An opaque back-side color raster distinguishable from the front. -/
def backColor : Img := fun _ _ => ⟨200, 10, 10, 255⟩

/-- C1 witness input: merged variant, 2×2 grid, opaque front and back. -/
def pC1 : MergedParams :=
  ⟨2, 2, 1, 1, false, imgWhite, depthFull, some (backColor, depthZero)⟩

/-- C2 witness input: merged variant, 3×2 grid, fully opaque, no back. -/
def pC2m : MergedParams := ⟨3, 2, 1, 1, false, imgWhite, depthRamp, none⟩

/-- C2 witness input: async variant, 8×4 raster (4×2 grid), opaque, bright
depth. -/
def pC2a : AsyncParams := ⟨8, 4, imgWhite, depthFull⟩

/-- C2 counterexample input: async variant, a 4×4 fully opaque raster pair
(logical grid 2×2) whose depth raster is black. -/
def pC2x : AsyncParams := ⟨4, 4, imgWhite, depthZero⟩

/-- C3 witness input: merged variant, 2×2 grid, front alpha 0 at cell 0. -/
def pC3m : MergedParams :=
  ⟨2, 2, 1, 1, false, (fun x y => if x = 0 ∧ y = 0 then ⟨255, 255, 255, 5⟩ else whiteOpaque),
    depthFull, none⟩

/-- C3 counterexample input: `createMeshFromData` on an 8×8 raster pair
(logical grid 2×2) whose color image is fully transparent but whose depth
image is bright everywhere. -/
def pC3x : MeshDataParams := ⟨8, 8, imgClear, depthFull, 1⟩

/-- C4 witness input: merged variant with a fully transparent front pair. -/
def pC4m : MergedParams := ⟨2, 2, 1, 1, false, imgClear, depthFull, none⟩

/-- C4 witness input: async variant with a fully transparent raster pair. -/
def pC4a : AsyncParams := ⟨4, 4, imgClear, depthFull⟩

/-- C5 input: merged variant, 2×2 grid, opaque front and back pairs. -/
def pC5 : MergedParams :=
  ⟨2, 2, 1, 1, false, imgWhite, depthFull, some (backColor, depthFull)⟩

/-- C6 input: the spec's example scenario — 4×4 fully opaque white color
image, depth `[0, 85, 170, 255]` per row, resolution `W = 4`, planar mode,
`displacementScale = 1`. -/
def pC6 : MergedParams := ⟨4, 4, 1, 1, false, imgWhite, depthRamp, none⟩

/-- C7 base input (the scale field is overridden by the theorem): 2×2 grid,
fully opaque, depth 255 everywhere — every cell sits on the grid boundary,
so every taper factor is 0. -/
def pC7fColor : Img := imgWhite

/-- C7 depth raster: red channel 255 everywhere. -/
def pC7fDepth : Img := depthFull

/-- C7 witness input (progressive variant): an 8×4 fully opaque raster with
bright depth everywhere. -/
def pC7a : AsyncParams := ⟨8, 4, imgWhite, depthFull⟩

/-- C8 input: cylindrical variant, 5×5 grid, fully opaque, constant depth
128; the trigonometric parameters are instantiated with the Pythagorean pair
`sinF = 0`, `cosF = 1`. -/
def pC8 : VolParams :=
  ⟨5, 5, 1, false, imgWhite, (fun _ _ => ⟨128, 0, 0, 255⟩), (fun _ => 0), (fun _ => 1)⟩

/-- C2 counterexample input (cylindrical variant): a fully opaque 2x2 pair
whose depth raster jumps from 0 to 255 between adjacent columns.  The trig
parameters are the Pythagorean pair sinF = 0, cosF = 1. -/
def pC2v : VolParams :=
  ⟨2, 2, 1, false, imgWhite,
    (fun x _ => if x = 0 then ⟨0, 0, 0, 255⟩ else ⟨255, 0, 0, 255⟩),
    (fun _ => 0), (fun _ => 1)⟩

/-- The geometry produced by `createMeshFromDataAsync` as a function of its
full argument list: the source receives `displacementScale` but never uses
it in the buffer (`vz = depthVal / 255` with the comment "scale applied in
shader or mesh scale"), so the synthesized vertices and indices are
independent of the scale argument. -/
def asyncCreate (p : AsyncParams) (_displacementScale : ℚ) :
    SynthState × List ℤ :=
  (asyncSynth p, asyncIndices p)

/-- The displaced Z actually applied to cell `k`'s vertex in the progressive
planar path: `GeneratedMesh` stores raw normalized depth in the buffer and
applies the displacement as the host mesh's Z scale
(`meshRef.current.scale.z = settings.displacementScale`), so the rendered or
exported Z is `displacementScale * (depthVal / 255)`. -/
def asyncDisplacedCellZ (q : AsyncParams) (scale : ℚ) (k : ℕ) : ℚ :=
  scale * (asyncVert q k).pz

/-! ## Generic loop lemmas -/

/-- Fold preservation of an invariant. -/
theorem foldl_preserves {α β : Type} (P : β → Prop) (f : β → α → β)
    (hf : ∀ b a, P b → P (f b a)) : ∀ (l : List α) (b : β), P b → P (l.foldl f b)
  | [], _, h => h
  | a :: l, b, h => foldl_preserves P f hf l (f b a) (hf b a h)

/-- Folds of pointwise-equal step functions agree. -/
theorem foldl_congr_fun {α β : Type} {f g : β → α → β}
    (h : ∀ b a, f b a = g b a) : ∀ (l : List α) (b : β), l.foldl f b = l.foldl g b
  | [], _ => rfl
  | a :: l, b => by
    rw [List.foldl_cons, List.foldl_cons, h, foldl_congr_fun h l]

/-- Unfolding one synthesis step. -/
theorem synthFold_succ (step : SynthState → ℕ → SynthState) (n : ℕ) :
    synthFold step (n + 1) = step (synthFold step n) n := by
  unfold synthFold
  rw [List.range_succ, List.foldl_append, List.foldl_cons, List.foldl_nil]

/-- Length of a flat map whose pieces all have length `c`. -/
theorem flatMap_const_length {α β : Type} (f : α → List β) (c : ℕ) :
    ∀ l : List α, (∀ a ∈ l, (f a).length = c) → (l.flatMap f).length = c * l.length
  | [], _ => by simp
  | a :: l, h => by
    have ha := h a (List.mem_cons_self a l)
    have hl := flatMap_const_length f c l (fun x hx => h x (List.mem_cons_of_mem a hx))
    simp only [List.flatMap_cons, List.length_append, ha, hl, List.length_cons]
    ring

theorem gridOK_mono {g : ℕ → ℤ} {n m : ℕ} (h : GridOK g n) (hnm : n ≤ m) :
    GridOK g m := by
  intro i
  rcases h i with h1 | ⟨h1, h2⟩
  · exact Or.inl h1
  · exact Or.inr ⟨h1, lt_of_lt_of_le h2 (by exact_mod_cast hnm)⟩

theorem setAt_gridOK {g : ℕ → ℤ} {n : ℕ} (h : GridOK g n) (i : ℕ) :
    GridOK (setAt g i (n : ℤ)) (n + 1) := by
  intro j
  unfold setAt
  by_cases hj : j = i
  · rw [if_pos hj]
    exact Or.inr ⟨Int.natCast_nonneg n, by exact_mod_cast Nat.lt_succ_self n⟩
  · rw [if_neg hj]
    exact gridOK_mono h (Nat.le_succ n) j

theorem initState_ok : StateOK initState := by
  constructor <;> exact fun _ => Or.inl rfl

theorem pushVert_ok {st : SynthState} (h : StateOK st) (cell : ℕ) (isBack : Bool)
    (vx : Vert) : StateOK (pushVert st cell isBack vx) := by
  obtain ⟨hf, hb⟩ := h
  have hlen : (pushVert st cell isBack vx).verts.length = st.verts.length + 1 := by
    simp [pushVert]
  unfold StateOK
  rw [hlen]
  cases isBack with
  | false =>
    exact ⟨setAt_gridOK hf cell, gridOK_mono hb (Nat.le_succ _)⟩
  | true =>
    exact ⟨gridOK_mono hf (Nat.le_succ _), setAt_gridOK hb cell⟩

theorem guardedPush_ok {vis : ℕ → Bool} {mk : ℕ → Vert} {isBack : Bool}
    {st : SynthState} (h : StateOK st) (k : ℕ) :
    StateOK (guardedPush vis mk isBack st k) := by
  unfold guardedPush
  split
  · exact pushVert_ok h k isBack (mk k)
  · exact h

theorem mergedStep_ok (p : MergedParams) {st : SynthState} (h : StateOK st)
    (k : ℕ) : StateOK (mergedStep p st k) := by
  unfold mergedStep
  cases p.back with
  | none => exact guardedPush_ok h k
  | some _ => exact guardedPush_ok (guardedPush_ok h k) k

theorem mergedSynth_ok (p : MergedParams) : StateOK (mergedSynth p) :=
  foldl_preserves StateOK (mergedStep p) (fun _ k h => mergedStep_ok p h k) _ _
    initState_ok

theorem volSynth_ok (p : VolParams) : StateOK (volSynth p) :=
  foldl_preserves StateOK _ (fun _ k h => guardedPush_ok h k) _ _ initState_ok

theorem meshDataSynth_ok (p : MeshDataParams) : StateOK (meshDataSynth p) :=
  foldl_preserves StateOK _ (fun _ k h => guardedPush_ok h k) _ _ initState_ok

theorem asyncSynth_ok (p : AsyncParams) : StateOK (asyncSynth p) :=
  foldl_preserves StateOK _ (fun _ k h => guardedPush_ok h k) _ _ initState_ok

/-! ## Triangulation lemmas -/

/-- A nonempty block emission forces all four cells to be valid. -/
theorem blockTris_ne_nil {w : ℕ} {grid : ℕ → ℤ} {keep emit} {x y : ℕ}
    (h : blockTris w grid keep emit x y ≠ []) :
    grid (y * w + x) ≠ -1 ∧ grid (y * w + (x + 1)) ≠ -1 ∧
    grid ((y + 1) * w + x) ≠ -1 ∧ grid ((y + 1) * w + (x + 1)) ≠ -1 := by
  unfold blockTris at h
  dsimp only at h
  split at h
  · assumption
  · exact absurd rfl h

/-- Every emitted index is a valid (non-sentinel) grid entry, provided the
winding only emits corner indices. -/
theorem mem_blockTris {w : ℕ} {grid : ℕ → ℤ} {keep emit} {x y : ℕ} {t : ℤ}
    (hemit : ∀ a b c d t, t ∈ emit a b c d → t = a ∨ t = b ∨ t = c ∨ t = d)
    (ht : t ∈ blockTris w grid keep emit x y) :
    ∃ i, grid i = t ∧ t ≠ -1 := by
  unfold blockTris at ht
  dsimp only at ht
  split at ht
  case isTrue hg =>
    obtain ⟨h1, h2, h3, h4⟩ := hg
    split at ht
    · rcases hemit _ _ _ _ _ ht with h | h | h | h
      · exact ⟨_, h.symm, h ▸ h1⟩
      · exact ⟨_, h.symm, h ▸ h2⟩
      · exact ⟨_, h.symm, h ▸ h3⟩
      · exact ⟨_, h.symm, h ▸ h4⟩
    · exact absurd ht (List.not_mem_nil t)
  case isFalse => exact absurd ht (List.not_mem_nil t)

theorem mem_triangulate {w h : ℕ} {grid : ℕ → ℤ} {keep emit} {t : ℤ}
    (hemit : ∀ a b c d t, t ∈ emit a b c d → t = a ∨ t = b ∨ t = c ∨ t = d)
    (ht : t ∈ triangulate w h grid keep emit) :
    ∃ i, grid i = t ∧ t ≠ -1 := by
  unfold triangulate at ht
  rcases List.mem_flatMap.mp ht with ⟨p, _, hp⟩
  exact mem_blockTris hemit hp

/-- Bounds for every emitted index over a well-formed grid. -/
theorem triangulate_bounds {w h n : ℕ} {grid : ℕ → ℤ} {keep emit} {t : ℤ}
    (hg : GridOK grid n)
    (hemit : ∀ a b c d t, t ∈ emit a b c d → t = a ∨ t = b ∨ t = c ∨ t = d)
    (ht : t ∈ triangulate w h grid keep emit) :
    0 ≤ t ∧ t < (n : ℤ) := by
  obtain ⟨i, hi, hne⟩ := mem_triangulate hemit ht
  rcases hg i with h1 | h1
  · exact absurd (hi ▸ h1) hne
  · exact hi ▸ h1

theorem mergedFrontEmit_mem :
    ∀ a b c d t, t ∈ mergedFrontEmit a b c d → t = a ∨ t = b ∨ t = c ∨ t = d := by
  intro a b c d t ht
  simp only [mergedFrontEmit, List.mem_cons, List.not_mem_nil, or_false] at ht
  tauto

theorem mergedBackEmit_mem :
    ∀ a b c d t, t ∈ mergedBackEmit a b c d → t = a ∨ t = b ∨ t = c ∨ t = d := by
  intro a b c d t ht
  simp only [mergedBackEmit, List.mem_cons, List.not_mem_nil, or_false] at ht
  tauto

theorem volEmit_mem :
    ∀ a b c d t, t ∈ volEmit a b c d → t = a ∨ t = b ∨ t = c ∨ t = d := by
  intro a b c d t ht
  simp only [volEmit, List.mem_cons, List.not_mem_nil, or_false] at ht
  tauto

theorem meshDataEmit_mem :
    ∀ a b c d t, t ∈ meshDataEmit a b c d → t = a ∨ t = b ∨ t = c ∨ t = d := by
  intro a b c d t ht
  simp only [meshDataEmit, List.mem_cons, List.not_mem_nil, or_false] at ht
  tauto

/-! ## Full-visibility synthesis: one vertex per cell, identity index grid -/

theorem cell_lt {x y w h : ℕ} (hx : x < w) (hy : y < h) : y * w + x < h * w :=
  calc y * w + x < y * w + w := by omega
    _ = (y + 1) * w := by ring
    _ ≤ h * w := Nat.mul_le_mul_right w hy

/-- When every cell passes the visibility test, the synthesis loop creates
exactly one vertex per cell and the index grid is the identity below `n`. -/
theorem synthFold_full (vis : ℕ → Bool) (mk : ℕ → Vert) (hvis : ∀ k, vis k = true) :
    ∀ n, (synthFold (guardedPush vis mk false) n).verts.length = n ∧
      ∀ i, (synthFold (guardedPush vis mk false) n).gridF i =
        if i < n then (i : ℤ) else -1
  | 0 => by
    constructor
    · rfl
    · intro i
      simp [synthFold, initState]
  | n + 1 => by
    obtain ⟨ih1, ih2⟩ := synthFold_full vis mk hvis n
    rw [synthFold_succ]
    have hstep : guardedPush vis mk false (synthFold (guardedPush vis mk false) n) n
        = pushVert (synthFold (guardedPush vis mk false) n) n false (mk n) := by
      unfold guardedPush
      rw [hvis n]
      exact if_pos rfl
    rw [hstep]
    constructor
    · simp [pushVert, ih1]
    · intro i
      show setAt (synthFold (guardedPush vis mk false) n).gridF n
          ((synthFold (guardedPush vis mk false) n).verts.length : ℤ) i = _
      rw [ih1]
      unfold setAt
      by_cases hi : i = n
      · rw [if_pos hi, if_pos (by omega), hi]
      · rw [if_neg hi, ih2 i]
        by_cases hlt : i < n
        · rw [if_pos hlt, if_pos (by omega)]
        · rw [if_neg hlt, if_neg (by omega)]

theorem mem_blockList {w h x y : ℕ} (hm : (x, y) ∈ blockList w h) :
    x < w - 1 ∧ y < h - 1 := by
  unfold blockList at hm
  rcases List.mem_flatMap.mp hm with ⟨y0, hy0, hx⟩
  rcases List.mem_map.mp hx with ⟨x0, hx0, heq⟩
  obtain ⟨rfl, rfl⟩ : x0 = x ∧ y0 = y := by simpa [Prod.ext_iff] using heq
  exact ⟨List.mem_range.mp hx0, List.mem_range.mp hy0⟩

theorem blockList_length (w h : ℕ) : (blockList w h).length = (w - 1) * (h - 1) := by
  unfold blockList
  rw [flatMap_const_length _ (w - 1) _ (fun a _ => by simp)]
  simp

/-- Over an identity grid, every block emits its full six indices. -/
theorem blockTris_full_length {w h x y : ℕ} {grid : ℕ → ℤ}
    {emit : ℤ → ℤ → ℤ → ℤ → List ℤ}
    (hgrid : ∀ i, grid i = if i < h * w then (i : ℤ) else -1)
    (hlen : ∀ a b c d, (emit a b c d).length = 6)
    (hx : x < w - 1) (hy : y < h - 1) :
    (blockTris w grid (fun _ _ _ _ => true) emit x y).length = 6 := by
  have h1 : y * w + x < h * w := cell_lt (by omega) (by omega)
  have h2 : y * w + (x + 1) < h * w := cell_lt (by omega) (by omega)
  have h3 : (y + 1) * w + x < h * w := cell_lt (by omega) (by omega)
  have h4 : (y + 1) * w + (x + 1) < h * w := cell_lt (by omega) (by omega)
  unfold blockTris
  dsimp only
  rw [hgrid, hgrid, hgrid, hgrid, if_pos h1, if_pos h2, if_pos h3, if_pos h4,
    if_pos ⟨by omega, by omega, by omega, by omega⟩, if_pos rfl]
  exact hlen _ _ _ _

/-- Over an identity grid, the triangulation emits `6·(w-1)·(h-1)` index
entries, i.e. `2·(w-1)·(h-1)` triangles. -/
theorem triangulate_full_length {w h : ℕ} {grid : ℕ → ℤ}
    {emit : ℤ → ℤ → ℤ → ℤ → List ℤ}
    (hgrid : ∀ i, grid i = if i < h * w then (i : ℤ) else -1)
    (hlen : ∀ a b c d, (emit a b c d).length = 6) :
    (triangulate w h grid (fun _ _ _ _ => true) emit).length =
      6 * ((w - 1) * (h - 1)) := by
  unfold triangulate
  rw [flatMap_const_length _ 6 _ ?_, blockList_length]
  intro a ha
  obtain ⟨x, y⟩ := a
  obtain ⟨hx, hy⟩ := mem_blockList ha
  exact blockTris_full_length hgrid hlen hx hy

/-- With no back pair, the merged loop body degenerates to the single
front-side guarded push. -/
theorem mergedSynth_none (p : MergedParams) (hb : p.back = none) :
    mergedSynth p =
      synthFold (guardedPush (mergedFrontVis p) (mergedFrontVert p) false)
        (p.h * p.w) := by
  unfold mergedSynth synthFold
  exact foldl_congr_fun (fun st k => by unfold mergedStep; rw [hb]) _ _

/-! ## Invisible cells never get a vertex -/

theorem guardedPush_true_gridF (vis : ℕ → Bool) (mk : ℕ → Vert)
    (st : SynthState) (k : ℕ) :
    (guardedPush vis mk true st k).gridF = st.gridF := by
  unfold guardedPush pushVert
  split <;> rfl

theorem guardedPush_false_gridB (vis : ℕ → Bool) (mk : ℕ → Vert)
    (st : SynthState) (k : ℕ) :
    (guardedPush vis mk false st k).gridB = st.gridB := by
  unfold guardedPush pushVert
  split <;> rfl

/-- A single-sided synthesis loop leaves the sentinel at every invisible
cell. -/
theorem synthFold_invisible {vis : ℕ → Bool} {mk : ℕ → Vert} {isBack : Bool}
    {c : ℕ} (hc : vis c = false) (n : ℕ) :
    (synthFold (guardedPush vis mk isBack) n).gridF c = -1 ∧
    (synthFold (guardedPush vis mk isBack) n).gridB c = -1 := by
  refine foldl_preserves (fun st : SynthState => st.gridF c = -1 ∧ st.gridB c = -1)
    _ ?_ _ _ ⟨rfl, rfl⟩
  intro st k hP
  obtain ⟨h1, h2⟩ := hP
  unfold guardedPush
  by_cases hk : vis k = true
  · rw [if_pos hk]
    have hkc : c ≠ k := by
      intro he
      rw [← he, hc] at hk
      exact Bool.false_ne_true hk
    cases isBack with
    | false => exact ⟨by simpa [pushVert, setAt, hkc] using h1, h2⟩
    | true => exact ⟨h1, by simpa [pushVert, setAt, hkc] using h2⟩
  · rw [if_neg hk]
    exact ⟨h1, h2⟩

/-- In the merged variant, a front cell failing the alpha test keeps the
front sentinel. -/
theorem mergedSynth_frontInvisible (p : MergedParams) {c : ℕ}
    (hc : mergedFrontVis p c = false) : (mergedSynth p).gridF c = -1 := by
  refine foldl_preserves (fun st : SynthState => st.gridF c = -1) _ ?_ _ _ rfl
  intro st k h1
  unfold mergedStep
  have hstep :
      (guardedPush (mergedFrontVis p) (mergedFrontVert p) false st k).gridF c = -1 := by
    unfold guardedPush
    by_cases hk : mergedFrontVis p k = true
    · rw [if_pos hk]
      have hkc : c ≠ k := by
        intro he
        rw [← he, hc] at hk
        exact Bool.false_ne_true hk
      simpa [pushVert, setAt, hkc] using h1
    · rw [if_neg hk]
      exact h1
  cases p.back with
  | none => exact hstep
  | some _ => rw [guardedPush_true_gridF]; exact hstep

/-- Case equations for the merged loop body. -/
theorem mergedStep_noneEq (p : MergedParams) (hb : p.back = none)
    (st : SynthState) (k : ℕ) :
    mergedStep p st k = guardedPush (mergedFrontVis p) (mergedFrontVert p) false st k := by
  unfold mergedStep
  rw [hb]

/-- Case equation for the merged loop body with a back pair. -/
theorem mergedStep_someEq (p : MergedParams) (bp : Img × Img) (hb : p.back = some bp)
    (st : SynthState) (k : ℕ) :
    mergedStep p st k =
      guardedPush (mergedBackVis p) (mergedBackVert p) true
        (guardedPush (mergedFrontVis p) (mergedFrontVert p) false st k) k := by
  unfold mergedStep
  rw [hb]

/-- In the merged variant, a back cell failing the alpha test keeps the back
sentinel. -/
theorem mergedSynth_backInvisible (p : MergedParams) {c : ℕ}
    (hc : mergedBackVis p c = false) : (mergedSynth p).gridB c = -1 := by
  refine foldl_preserves (fun st : SynthState => st.gridB c = -1) _ ?_ _ _ rfl
  intro st k h1
  cases hb : p.back with
  | none =>
    rw [mergedStep_noneEq p hb, guardedPush_false_gridB]
    exact h1
  | some bp =>
    rw [mergedStep_someEq p bp hb]
    have h1t : (guardedPush (mergedFrontVis p) (mergedFrontVert p) false st k).gridB c
        = -1 := by
      rw [guardedPush_false_gridB]
      exact h1
    unfold guardedPush
    by_cases hk : mergedBackVis p k = true
    · rw [if_pos hk]
      have hkc : c ≠ k := by
        intro he
        rw [← he, hc] at hk
        exact Bool.false_ne_true hk
      simpa [pushVert, setAt, hkc] using h1t
    · rw [if_neg hk]
      exact h1t

/-! ## Front/back index disjointness (merged variant) -/

theorem pushVert_disjoint {st : SynthState} (h : StateOK st) (hd : Disjointed st)
    (cell : ℕ) (isBack : Bool) (vx : Vert) :
    Disjointed (pushVert st cell isBack vx) := by
  intro i j
  cases isBack with
  | false =>
    show setAt st.gridF cell (st.verts.length : ℤ) i ≠ -1 → st.gridB j ≠ -1 →
      setAt st.gridF cell (st.verts.length : ℤ) i ≠ st.gridB j
    unfold setAt
    by_cases hic : i = cell
    · rw [if_pos hic]
      intro _ hbj heq
      rcases h.2 j with hb | ⟨_, hb2⟩
      · exact hbj hb
      · rw [← heq] at hb2
        exact lt_irrefl _ hb2
    · rw [if_neg hic]
      exact hd i j
  | true =>
    show st.gridF i ≠ -1 → setAt st.gridB cell (st.verts.length : ℤ) j ≠ -1 →
      st.gridF i ≠ setAt st.gridB cell (st.verts.length : ℤ) j
    unfold setAt
    by_cases hjc : j = cell
    · rw [if_pos hjc]
      intro hfi _ heq
      rcases h.1 i with hf | ⟨_, hf2⟩
      · exact hfi hf
      · rw [heq] at hf2
        exact lt_irrefl _ hf2
    · rw [if_neg hjc]
      exact hd i j

theorem guardedPush_disjoint {vis : ℕ → Bool} {mk : ℕ → Vert} {isBack : Bool}
    {st : SynthState} (h : StateOK st) (hd : Disjointed st) (k : ℕ) :
    Disjointed (guardedPush vis mk isBack st k) := by
  unfold guardedPush
  split
  · exact pushVert_disjoint h hd k isBack (mk k)
  · exact hd

theorem mergedSynth_disjoint (p : MergedParams) : Disjointed (mergedSynth p) := by
  have := foldl_preserves (fun st : SynthState => StateOK st ∧ Disjointed st)
    (mergedStep p) ?_ (List.range (p.h * p.w)) initState
    ⟨initState_ok, fun _ _ h _ => absurd rfl h⟩
  · exact this.2
  · intro st k hP
    obtain ⟨hok, hd⟩ := hP
    cases hb : p.back with
    | none =>
      rw [mergedStep_noneEq p hb]
      exact ⟨guardedPush_ok hok k, guardedPush_disjoint hok hd k⟩
    | some bp =>
      rw [mergedStep_someEq p bp hb]
      exact ⟨guardedPush_ok (guardedPush_ok hok k) k,
        guardedPush_disjoint (guardedPush_ok hok k)
          (guardedPush_disjoint hok hd k) k⟩

/-! ## Pure rescaling of the displacement parameter (planar merged variant) -/

theorem foldl_preserves2 {α β : Type} (P : β → β → Prop) (f g : β → α → β)
    (hf : ∀ b1 b2 a, P b1 b2 → P (f b1 a) (g b2 a)) :
    ∀ (l : List α) (b1 b2 : β), P b1 b2 → P (l.foldl f b1) (l.foldl g b2)
  | [], _, _, h => h
  | a :: l, b1, b2, h => foldl_preserves2 P f g hf l (f b1 a) (g b2 a) (hf b1 b2 a h)

theorem scaleZpos (s1 s2 d t : ℚ) (hs : s1 ≠ 0) :
    (d * s2 * (1/2)) * t = s2 / s1 * ((d * s1 * (1/2)) * t) := by
  field_simp
  ring

theorem scaleZneg (s1 s2 d t : ℚ) (hs : s1 ≠ 0) :
    -(d * s2 * (1/2)) * t = s2 / s1 * (-(d * s1 * (1/2)) * t) := by
  field_simp
  ring

theorem mergedFrontVert_scaled (w h : ℕ) (aspect : ℚ) (isTripo : Bool)
    (fColor fDepth : Img) (back : Option (Img × Img)) (s1 s2 : ℚ)
    (hs : s1 ≠ 0) (k : ℕ) :
    ScaledVert (s2 / s1)
      (mergedFrontVert ⟨w, h, aspect, s1, isTripo, fColor, fDepth, back⟩ k)
      (mergedFrontVert ⟨w, h, aspect, s2, isTripo, fColor, fDepth, back⟩ k) := by
  refine ⟨rfl, rfl, ?_, rfl, rfl, rfl, rfl, rfl⟩
  exact scaleZpos s1 s2 _ _ hs

theorem mergedBackVert_scaled (w h : ℕ) (aspect : ℚ) (isTripo : Bool)
    (fColor fDepth bc bd : Img) (s1 s2 : ℚ) (hs : s1 ≠ 0) (k : ℕ) :
    ScaledVert (s2 / s1)
      (mergedBackVert ⟨w, h, aspect, s1, isTripo, fColor, fDepth, some (bc, bd)⟩ k)
      (mergedBackVert ⟨w, h, aspect, s2, isTripo, fColor, fDepth, some (bc, bd)⟩ k) := by
  refine ⟨rfl, rfl, ?_, rfl, rfl, rfl, rfl, rfl⟩
  exact scaleZneg s1 s2 _ _ hs

theorem pushVert_scaled {r : ℚ} {s1 s2 : SynthState} (h : ScaledState r s1 s2)
    (cell : ℕ) (isBack : Bool) {v1 v2 : Vert} (hv : ScaledVert r v1 v2) :
    ScaledState r (pushVert s1 cell isBack v1) (pushVert s2 cell isBack v2) := by
  obtain ⟨hf, hb, hvs⟩ := h
  have hlen : s1.verts.length = s2.verts.length := List.Forall₂.length_eq hvs
  refine ⟨?_, ?_, ?_⟩
  · intro i
    cases isBack with
    | false =>
      show setAt s1.gridF cell (s1.verts.length : ℤ) i =
        setAt s2.gridF cell (s2.verts.length : ℤ) i
      unfold setAt
      rw [hlen, hf]
    | true => exact hf i
  · intro i
    cases isBack with
    | false => exact hb i
    | true =>
      show setAt s1.gridB cell (s1.verts.length : ℤ) i =
        setAt s2.gridB cell (s2.verts.length : ℤ) i
      unfold setAt
      rw [hlen, hb]
  · show List.Forall₂ (ScaledVert r) (s1.verts ++ [v1]) (s2.verts ++ [v2])
    exact List.rel_append hvs (List.Forall₂.cons hv List.Forall₂.nil)

theorem guardedPush_scaled {r : ℚ} {t1 t2 : SynthState} (h : ScaledState r t1 t2)
    (vis : ℕ → Bool) {mk1 mk2 : ℕ → Vert} (isBack : Bool) (k : ℕ)
    (hmk : ScaledVert r (mk1 k) (mk2 k)) :
    ScaledState r (guardedPush vis mk1 isBack t1 k)
      (guardedPush vis mk2 isBack t2 k) := by
  unfold guardedPush
  by_cases hk : vis k = true
  · rw [if_pos hk, if_pos hk]
    exact pushVert_scaled h k isBack hmk
  · rw [if_neg hk, if_neg hk]
    exact h

theorem mergedStep_scaled (w h : ℕ) (aspect : ℚ) (isTripo : Bool)
    (fColor fDepth : Img) (back : Option (Img × Img)) (s1 s2 : ℚ) (hs : s1 ≠ 0)
    {t1 t2 : SynthState} (hrel : ScaledState (s2 / s1) t1 t2) (k : ℕ) :
    ScaledState (s2 / s1)
      (mergedStep ⟨w, h, aspect, s1, isTripo, fColor, fDepth, back⟩ t1 k)
      (mergedStep ⟨w, h, aspect, s2, isTripo, fColor, fDepth, back⟩ t2 k) := by
  cases back with
  | none =>
    rw [mergedStep_noneEq _ rfl, mergedStep_noneEq _ rfl]
    exact guardedPush_scaled hrel _ false k
      (mergedFrontVert_scaled w h aspect isTripo fColor fDepth none s1 s2 hs k)
  | some bp =>
    obtain ⟨bc, bd⟩ := bp
    rw [mergedStep_someEq _ (bc, bd) rfl, mergedStep_someEq _ (bc, bd) rfl]
    have hfront := guardedPush_scaled hrel
      (mergedFrontVis ⟨w, h, aspect, s1, isTripo, fColor, fDepth, some (bc, bd)⟩)
      false k
      (mergedFrontVert_scaled w h aspect isTripo fColor fDepth (some (bc, bd)) s1 s2 hs k)
    exact guardedPush_scaled hfront _ true k
      (mergedBackVert_scaled w h aspect isTripo fColor fDepth bc bd s1 s2 hs k)

theorem mergedSynth_scaled (w h : ℕ) (aspect : ℚ) (isTripo : Bool)
    (fColor fDepth : Img) (back : Option (Img × Img)) (s1 s2 : ℚ) (hs : s1 ≠ 0) :
    ScaledState (s2 / s1)
      (mergedSynth ⟨w, h, aspect, s1, isTripo, fColor, fDepth, back⟩)
      (mergedSynth ⟨w, h, aspect, s2, isTripo, fColor, fDepth, back⟩) :=
  foldl_preserves2 (ScaledState (s2 / s1)) _ _
    (fun _ _ k hrel => mergedStep_scaled w h aspect isTripo fColor fDepth back
      s1 s2 hs hrel k) _ _ _
    ⟨fun _ => rfl, fun _ => rfl, List.Forall₂.nil⟩

/-- Triangulation only reads the grid pointwise. -/
theorem triangulate_congr {w h : ℕ} {g1 g2 : ℕ → ℤ} {keep emit}
    (hg : ∀ i, g1 i = g2 i) :
    triangulate w h g1 keep emit = triangulate w h g2 keep emit := by
  unfold triangulate
  congr 1
  funext q
  unfold blockTris
  rw [hg, hg, hg, hg]

/-! ## Remaining support lemmas -/

theorem mergedBackIndices_none (p : MergedParams) (hb : p.back = none) :
    mergedBackIndices p = [] := by
  unfold mergedBackIndices
  rw [hb]

theorem mergedBackIndices_some (p : MergedParams) (bp : Img × Img)
    (hb : p.back = some bp) :
    mergedBackIndices p =
      triangulate p.w p.h (mergedSynth p).gridB (fun _ _ _ _ => true)
        mergedBackEmit := by
  unfold mergedBackIndices
  rw [hb]

/-- Triangulating an all-sentinel grid emits nothing. -/
theorem triangulate_sentinel {w h : ℕ} {keep emit} :
    triangulate w h (fun _ => (-1 : ℤ)) keep emit = [] := by
  unfold triangulate
  rw [List.flatMap_eq_nil_iff]
  intro q _
  simp [blockTris]

/-- Every reported progress value lies in [0, 100]. -/
theorem asyncReportsAux_bounds {h : ℕ} (hq : 1 ≤ h) :
    ∀ (fuel y : ℕ), ∀ v ∈ asyncReportsAux fuel y h, 0 ≤ v ∧ v ≤ 100
  | 0, y => by simp [asyncReportsAux]
  | fuel + 1, y => by
    intro v hv
    have hhq : (0 : ℚ) < (h : ℚ) := by exact_mod_cast hq
    have hle : ((min (y + 50) h : ℕ) : ℚ) / (h : ℚ) ≤ 1 := by
      rw [div_le_one hhq]
      exact_mod_cast min_le_right (y + 50) h
    have h0 : (0 : ℚ) ≤ ((min (y + 50) h : ℕ) : ℚ) / (h : ℚ) := by positivity
    have hrep : 0 ≤ jsRound (((min (y + 50) h : ℕ) : ℚ) / (h : ℚ) * 100) ∧
        jsRound (((min (y + 50) h : ℕ) : ℚ) / (h : ℚ) * 100) ≤ 100 := by
      unfold jsRound
      constructor
      · apply Int.le_floor.mpr
        have hx : (0 : ℚ) ≤ ((min (y + 50) h : ℕ) : ℚ) / (h : ℚ) * 100 + 1/2 := by
          nlinarith
        exact_mod_cast hx
      · calc ⌊((min (y + 50) h : ℕ) : ℚ) / (h : ℚ) * 100 + 1/2⌋
            ≤ ⌊(100 + 1/2 : ℚ)⌋ := Int.floor_le_floor (by nlinarith)
          _ = 100 := by norm_num
    unfold asyncReportsAux at hv
    dsimp only at hv
    split at hv
    · rcases List.mem_cons.mp hv with rfl | hv2
      · exact hrep
      · exact asyncReportsAux_bounds hq fuel (min (y + 50) h) v hv2
    · rw [List.mem_singleton] at hv
      subst hv
      exact hrep

/-- With sufficient fuel, the final report is exactly 100. -/
theorem asyncReportsAux_last {h : ℕ} (hq : 1 ≤ h) :
    ∀ (fuel y : ℕ), y < h → h ≤ y + fuel →
      (asyncReportsAux fuel y h).getLast? = some 100
  | 0, y => by
    intro hy hf
    omega
  | fuel + 1, y => by
    intro hy hf
    unfold asyncReportsAux
    dsimp only
    by_cases hnext : min (y + 50) h < h
    · rw [if_pos hnext]
      have ih := asyncReportsAux_last hq fuel (min (y + 50) h) hnext (by omega)
      cases hrec : asyncReportsAux fuel (min (y + 50) h) h with
      | nil => rw [hrec] at ih; simp at ih
      | cons r rs =>
        rw [hrec] at ih
        rw [List.getLast?_cons_cons]
        exact ih
    · rw [if_neg hnext]
      have hmin : min (y + 50) h = h := by omega
      rw [hmin]
      have hhq : (0 : ℚ) < (h : ℚ) := by exact_mod_cast hq
      have hval : ((h : ℕ) : ℚ) / (h : ℚ) * 100 = 100 := by
        rw [div_self (ne_of_gt hhq)]
        ring
      rw [hval]
      simp [jsRound]
      norm_num

/-- Length bound for a flat map whose pieces are bounded by `c`. -/
theorem flatMap_le_length {α β : Type} (f : α → List β) (c : ℕ) :
    ∀ l : List α, (∀ a ∈ l, (f a).length ≤ c) → (l.flatMap f).length ≤ c * l.length
  | [], _ => by simp
  | a :: l, hl => by
    have h1 := hl a (List.mem_cons_self a l)
    have h2 := flatMap_le_length f c l (fun x hx => hl x (List.mem_cons_of_mem a hx))
    simp only [List.flatMap_cons, List.length_append, List.length_cons]
    calc (f a).length + (l.flatMap f).length ≤ c + c * l.length :=
          Nat.add_le_add h1 h2
      _ = c * (l.length + 1) := by ring

/-- A block emits at most six indices, whatever the grid and the filter. -/
theorem blockTris_le_length {w : ℕ} {grid : ℕ → ℤ} {keep emit} {x y : ℕ}
    (hlen : ∀ a b c d, (emit a b c d).length = 6) :
    (blockTris w grid keep emit x y).length ≤ 6 := by
  unfold blockTris
  dsimp only
  split
  · split
    · exact le_of_eq (hlen _ _ _ _)
    · simp
  · simp

/-- Whatever the degeneracy filter rejects, the triangulation never exceeds
`6·(w-1)·(h-1)` index entries. -/
theorem triangulate_le_length {w h : ℕ} {grid : ℕ → ℤ} {keep emit}
    (hlen : ∀ a b c d, (emit a b c d).length = 6) :
    (triangulate w h grid keep emit).length ≤ 6 * ((w - 1) * (h - 1)) := by
  unfold triangulate
  calc ((blockList w h).flatMap
        (fun p => blockTris w grid keep emit p.1 p.2)).length
      ≤ 6 * (blockList w h).length :=
        flatMap_le_length _ 6 _ (fun a _ => blockTris_le_length hlen)
    _ = 6 * ((w - 1) * (h - 1)) := by rw [blockList_length]

/-! ## Claim theorems -/

/-- C1: Every triangle emitted by any generation variant references only
existing vertices — each entry of every triangle index stream is ≥ 0 and
smaller than that buffer's total vertex count — and a 2×2 block contributes
its triangles only when all four cells hold a non-sentinel vertex index. -/
theorem claim_c1_triangle_indices_valid :
    (∀ (p : MergedParams), ∀ t ∈ mergedIndices p,
      0 ≤ t ∧ t < (mergedVertexCount p : ℤ)) ∧
    (∀ (p : VolParams), ∀ t ∈ volIndices p,
      0 ≤ t ∧ t < ((volSynth p).verts.length : ℤ)) ∧
    (∀ (p : MeshDataParams), ∀ t ∈ meshDataIndices p,
      0 ≤ t ∧ t < ((meshDataSynth p).verts.length : ℤ)) ∧
    (∀ (p : AsyncParams), ∀ t ∈ asyncIndices p,
      0 ≤ t ∧ t < ((asyncSynth p).verts.length : ℤ)) ∧
    (∀ (w : ℕ) (grid : ℕ → ℤ) (keep : ℤ → ℤ → ℤ → ℤ → Bool)
      (emit : ℤ → ℤ → ℤ → ℤ → List ℤ) (x y : ℕ),
      blockTris w grid keep emit x y ≠ [] →
        grid (y * w + x) ≠ -1 ∧ grid (y * w + (x + 1)) ≠ -1 ∧
        grid ((y + 1) * w + x) ≠ -1 ∧ grid ((y + 1) * w + (x + 1)) ≠ -1) := by
  refine ⟨?_, ?_, ?_, ?_, fun w grid keep emit x y hne => blockTris_ne_nil hne⟩
  · intro p t ht
    rcases List.mem_append.mp ht with hm | hm
    · exact triangulate_bounds (mergedSynth_ok p).1 mergedFrontEmit_mem hm
    · cases hb : p.back with
      | none =>
        rw [mergedBackIndices_none p hb] at hm
        exact absurd hm (List.not_mem_nil t)
      | some bp =>
        rw [mergedBackIndices_some p bp hb] at hm
        exact triangulate_bounds (mergedSynth_ok p).2 mergedBackEmit_mem hm
  · intro p t ht
    exact triangulate_bounds (volSynth_ok p).1 volEmit_mem ht
  · intro p t ht
    exact triangulate_bounds (meshDataSynth_ok p).1 meshDataEmit_mem ht
  · intro p t ht
    exact triangulate_bounds (asyncSynth_ok p).1 meshDataEmit_mem ht

/-- C1 witness: on a concrete 2×2 two-sided input, index 0 occurs in the
index stream and the theorem bounds it by the vertex count 8; the nonempty
front block forces its four cells valid. -/
theorem claim_c1_triangle_indices_valid_witness :
    ((0 : ℤ) ∈ mergedIndices pC1 ∧ 0 ≤ (0 : ℤ) ∧ (0 : ℤ) < (mergedVertexCount pC1 : ℤ)) ∧
    (blockTris 2 (mergedSynth pC1).gridF (fun _ _ _ _ => true) mergedFrontEmit 0 0 ≠ [] ∧
      (mergedSynth pC1).gridF (0 * 2 + 0) ≠ -1) :=
  ⟨⟨by decide, claim_c1_triangle_indices_valid.1 pC1 0 (by decide)⟩,
   ⟨by decide,
    (claim_c1_triangle_indices_valid.2.2.2.2 2 (mergedSynth pC1).gridF
      (fun _ _ _ _ => true) mergedFrontEmit 0 0 (by decide)).1⟩⟩

set_option maxHeartbeats 1000000 in
/-- C2 counterexample: two cited variants violate the exact counts on fully
opaque pairs.  (1) `createMeshFromDataAsync` on a fully opaque 4x4 pair
whose depth raster is black classifies every cell as background
(`alpha > 250 && depthVal < 20`), producing 0 vertices instead of
W·H = 4.  (2) `createVolumetricGeometry` on a fully opaque 2x2 pair whose
depth jumps from 0 to 255 between columns keeps all 4 vertices (alpha ≥ 50
everywhere) but its degenerate-triangle filter (`dist < 0.2`) rejects the
only block: 0 triangles instead of 2·(W-1)·(H-1) = 2. -/
theorem claim_c2_counterexample :
    (pC2x.colorImg = imgWhite ∧ whiteOpaque.a = 255 ∧
      (asyncSynth pC2x).verts.length = 0 ∧ asyncW pC2x * asyncH pC2x = 4 ∧
      (asyncSynth pC2x).verts.length ≠ asyncW pC2x * asyncH pC2x) ∧
    (pC2v.colorData = imgWhite ∧ (volSynth pC2v).verts.length = 4 ∧
      volIndices pC2v = [] ∧
      (volIndices pC2v).length ≠ 3 * (2 * ((pC2v.w - 1) * (pC2v.h - 1)))) := by
  have hnil : volIndices pC2v = [] := by
    norm_num [volIndices, triangulate, blockList, blockTris, volKeep, dist2,
      volSynth, synthFold, List.range, List.range.loop, guardedPush, pushVert,
      volVis, volVert, volRadius, volThetaOverPi, pC2v, imgWhite, whiteOpaque,
      setAt, initState, List.getD]
  refine ⟨⟨rfl, rfl, by decide, by decide, by decide⟩, rfl, by decide, hnil, ?_⟩
  rw [hnil]
  decide

/-- C2 amended: for every fully opaque color/depth raster pair, the merged
planar variant yields exactly W·H vertices and 2·(W-1)·(H-1) triangles
(three index entries per triangle); the progressive variant satisfies the
same counts under the additional condition that every sampled depth value is
at least the darkness threshold 20; the cylindrical variant yields exactly
W·H vertices, but for it 2·(W-1)·(H-1) is only an upper bound on the
triangle count — its degenerate-triangle filter can reject blocks whose
vertices lie further than 0.2 apart (depth jumps, coarse grids). -/
theorem claim_c2_amended (p : MergedParams) (hb : p.back = none)
    (ha : ∀ x y, (p.fColor x y).a = 255)
    (q : AsyncParams) (qa : ∀ x y, (q.colorImg x y).a = 255)
    (qd : ∀ x y, 20 ≤ (q.depthImg x y).r)
    (r : VolParams) (va : ∀ x y, (r.colorData x y).a = 255) :
    (mergedVertexCount p = p.w * p.h ∧
      (mergedIndices p).length = 3 * (2 * ((p.w - 1) * (p.h - 1)))) ∧
    ((asyncSynth q).verts.length = asyncW q * asyncH q ∧
      (asyncIndices q).length = 3 * (2 * ((asyncW q - 1) * (asyncH q - 1)))) ∧
    ((volSynth r).verts.length = r.w * r.h ∧
      (volIndices r).length ≤ 3 * (2 * ((r.w - 1) * (r.h - 1)))) := by
  refine ⟨?_, ?_, ?_⟩
  · have hvis : ∀ k, mergedFrontVis p k = true := by
      intro k
      unfold mergedFrontVis
      rw [ha]
      decide
    obtain ⟨hlen, hgrid⟩ :=
      synthFold_full (mergedFrontVis p) (mergedFrontVert p) hvis (p.h * p.w)
    have hlen2 : (mergedSynth p).verts.length = p.h * p.w := by
      rw [mergedSynth_none p hb]
      exact hlen
    have hgrid2 : ∀ i, (mergedSynth p).gridF i =
        if i < p.h * p.w then (i : ℤ) else -1 := by
      rw [mergedSynth_none p hb]
      exact hgrid
    constructor
    · rw [mergedVertexCount, hlen2, Nat.mul_comm]
    · rw [mergedIndices, List.length_append, mergedBackIndices_none p hb,
        List.length_nil, mergedFrontIndices,
        @triangulate_full_length p.w p.h (mergedSynth p).gridF mergedFrontEmit
          hgrid2 (fun a b c d => rfl)]
      ring
  · have hvis : ∀ k, asyncVis q k = true := by
      intro k
      have hd := qd ((k % asyncW q) * 2) ((k / asyncW q) * 2)
      unfold asyncVis
      dsimp only
      rw [qa]
      rw [decide_eq_true_eq]
      omega
    obtain ⟨hlen, hgrid⟩ :=
      synthFold_full (asyncVis q) (asyncVert q) hvis (asyncH q * asyncW q)
    have hgrid2 : ∀ i, (asyncSynth q).gridF i =
        if i < asyncH q * asyncW q then (i : ℤ) else -1 := hgrid
    constructor
    · rw [show (asyncSynth q).verts.length =
          (synthFold (guardedPush (asyncVis q) (asyncVert q) false)
            (asyncH q * asyncW q)).verts.length from rfl, hlen, Nat.mul_comm]
    · rw [asyncIndices,
        @triangulate_full_length (asyncW q) (asyncH q) (asyncSynth q).gridF
          meshDataEmit hgrid2 (fun a b c d => rfl)]
      ring
  · have hvis : ∀ k, volVis r k = true := by
      intro k
      unfold volVis
      rw [va]
      decide
    obtain ⟨hlen, _⟩ :=
      synthFold_full (volVis r) (volVert r) hvis (r.h * r.w)
    constructor
    · rw [show (volSynth r).verts.length =
          (synthFold (guardedPush (volVis r) (volVert r) false)
            (r.h * r.w)).verts.length from rfl, hlen, Nat.mul_comm]
    · calc (volIndices r).length
          ≤ 6 * ((r.w - 1) * (r.h - 1)) :=
            @triangulate_le_length r.w r.h (volSynth r).gridF
              (volKeep (volSynth r).verts) volEmit (fun a b c d => rfl)
        _ = 3 * (2 * ((r.w - 1) * (r.h - 1))) := by ring

/-- C2 witness: the amended theorem instantiated on concrete opaque inputs —
a 3×2 merged grid (6 vertices, 4 triangles), an 8×4 raster for the
progressive variant (4×2 grid, 8 vertices, 6 triangles), and the 2×2
cylindrical input (4 vertices, at most 2 triangles). -/
theorem claim_c2_amended_witness :
    (mergedVertexCount pC2m = pC2m.w * pC2m.h ∧
      (mergedIndices pC2m).length = 3 * (2 * ((pC2m.w - 1) * (pC2m.h - 1)))) ∧
    ((asyncSynth pC2a).verts.length = asyncW pC2a * asyncH pC2a ∧
      (asyncIndices pC2a).length = 3 * (2 * ((asyncW pC2a - 1) * (asyncH pC2a - 1)))) ∧
    ((volSynth pC2v).verts.length = pC2v.w * pC2v.h ∧
      (volIndices pC2v).length ≤ 3 * (2 * ((pC2v.w - 1) * (pC2v.h - 1)))) :=
  claim_c2_amended pC2m rfl (fun _ _ => rfl) pC2a (fun _ _ => rfl)
    (fun x y => by show (20 : ℕ) ≤ 255; decide) pC2v (fun _ _ => rfl)

/-- C3 counterexample: `createMeshFromData` never samples the color image's
alpha channel; with a fully transparent color image (alpha 0 everywhere,
below every variant's visibility threshold) and a bright depth raster, the
cell grid still records vertex 0 for cell 0 and four vertices are created. -/
theorem claim_c3_counterexample :
    pC3x.colorImg = imgClear ∧ (imgClear 0 0).a = 0 ∧
    (meshDataSynth pC3x).gridF 0 = 0 ∧ (meshDataSynth pC3x).verts.length = 4 :=
  ⟨rfl, rfl, by decide, by decide⟩

/-- C3 amended: in every generation variant that samples alpha — the merged
planar variant (front and back, threshold 10), the cylindrical variant
(threshold 50) and the progressive variant (threshold 50) — a cell whose
sampled alpha is below the threshold keeps the sentinel in its index grid
(no vertex is created for it); the synchronous `createMeshFromData` filters
on the depth red channel only and is exempt (counterexample). -/
theorem claim_c3_amended :
    (∀ (p : MergedParams) (c : ℕ), (p.fColor (c % p.w) (c / p.w)).a ≤ 10 →
      (mergedSynth p).gridF c = -1) ∧
    (∀ (p : MergedParams) (bc bd : Img) (c : ℕ), p.back = some (bc, bd) →
      (bc (c % p.w) (c / p.w)).a ≤ 10 → (mergedSynth p).gridB c = -1) ∧
    (∀ (p : VolParams) (c : ℕ), (p.colorData (c % p.w) (c / p.w)).a < 50 →
      (volSynth p).gridF c = -1) ∧
    (∀ (p : AsyncParams) (c : ℕ),
      (p.colorImg ((c % asyncW p) * 2) ((c / asyncW p) * 2)).a < 50 →
      (asyncSynth p).gridF c = -1) := by
  refine ⟨?_, ?_, ?_, ?_⟩
  · intro p c hc
    apply mergedSynth_frontInvisible
    unfold mergedFrontVis
    rw [decide_eq_false_iff_not]
    omega
  · intro p bc bd c hb hc
    apply mergedSynth_backInvisible
    unfold mergedBackVis
    rw [hb]
    rw [decide_eq_false_iff_not]
    omega
  · intro p c hc
    refine (synthFold_invisible ?_ (p.h * p.w)).1
    unfold volVis
    rw [decide_eq_false_iff_not]
    omega
  · intro p c hc
    refine (synthFold_invisible ?_ (asyncH p * asyncW p)).1
    unfold asyncVis
    dsimp only
    rw [decide_eq_false_iff_not]
    intro hcon
    exact hcon (Or.inl hc)

/-- C3 witness: on a 2×2 merged input whose cell (0,0) has alpha 5, the
theorem forces the front grid sentinel at that cell. -/
theorem claim_c3_amended_witness :
    (pC3m.fColor (0 % pC3m.w) (0 / pC3m.w)).a ≤ 10 ∧
    (mergedSynth pC3m).gridF 0 = -1 :=
  ⟨by decide, claim_c3_amended.1 pC3m 0 (by decide)⟩

/-- C4: a fully transparent raster pair (alpha 0 at every pixel) yields an
explicitly empty buffer — zero vertices and zero triangle indices — in both
the merged planar variant and the progressive variant; the embedding is a
total function, matching the source paths reaching `resolve` without
throwing on decoded inputs. -/
theorem claim_c4_transparent_empty (p : MergedParams) (hb : p.back = none)
    (ha : ∀ x y, (p.fColor x y).a = 0)
    (q : AsyncParams) (qa : ∀ x y, (q.colorImg x y).a = 0) :
    ((mergedSynth p).verts = [] ∧ mergedIndices p = []) ∧
    ((asyncSynth q).verts = [] ∧ asyncIndices q = []) := by
  have hpvis : ∀ k, mergedFrontVis p k = false := by
    intro k
    unfold mergedFrontVis
    rw [ha, decide_eq_false_iff_not]
    omega
  have hqvis : ∀ k, asyncVis q k = false := by
    intro k
    unfold asyncVis
    dsimp only
    rw [qa, decide_eq_false_iff_not]
    intro hcon
    exact hcon (Or.inl (by omega))
  have hpinit : mergedSynth p = initState := by
    refine foldl_preserves (fun st : SynthState => st = initState) _ ?_ _ _ rfl
    intro st k hst
    subst hst
    rw [mergedStep_noneEq p hb]
    unfold guardedPush
    rw [hpvis k]
    rfl
  have hqinit : asyncSynth q = initState := by
    refine foldl_preserves (fun st : SynthState => st = initState) _ ?_ _ _ rfl
    intro st k hst
    subst hst
    unfold guardedPush
    rw [hqvis k]
    rfl
  constructor
  · constructor
    · rw [hpinit]
      rfl
    · rw [mergedIndices, mergedBackIndices_none p hb, List.append_nil,
        mergedFrontIndices, hpinit]
      exact triangulate_sentinel
  · constructor
    · rw [hqinit]
      rfl
    · rw [asyncIndices, hqinit]
      exact triangulate_sentinel

/-- C4 witness: the theorem instantiated on concrete fully transparent 2×2
inputs. -/
theorem claim_c4_transparent_empty_witness :
    ((mergedSynth pC4m).verts = [] ∧ mergedIndices pC4m = []) ∧
    ((asyncSynth pC4a).verts = [] ∧ asyncIndices pC4a = []) :=
  claim_c4_transparent_empty pC4m rfl (fun _ _ => rfl) pC4a (fun _ _ => rfl)

/-- C5 counterexample: on a 2×2 grid with opaque front and back pairs, the
merged loop interleaves front and back vertices in one buffer with a shared
counter (back cell 0 receives index 1); the back triangle stream contains
index 1, which is smaller than the front-side vertex count 4 — so back
triangle indices are not front-count plus a back-local index, and the buffer
is not a front-then-back concatenation. -/
theorem claim_c5_counterexample :
    (mergedSynth pC5).gridB 0 = 1 ∧ mergedFrontCount pC5 = 4 ∧
    (1 : ℤ) ∈ mergedBackIndices pC5 ∧ ¬((4 : ℤ) ≤ 1) :=
  ⟨by decide, by decide, by decide, by decide⟩

/-- C5 amended: front and back vertices share one buffer with a single
interleaved counter; every vertex index used by a back-side triangle is a
back-grid entry (the index of a back-side vertex), is never a front-grid
entry, and is a valid index of the combined buffer. -/
theorem claim_c5_amended (p : MergedParams) (t : ℤ)
    (ht : t ∈ mergedBackIndices p) :
    (∃ c, (mergedSynth p).gridB c = t) ∧
    (∀ c, (mergedSynth p).gridF c ≠ t) ∧
    0 ≤ t ∧ t < (mergedVertexCount p : ℤ) := by
  cases hb : p.back with
  | none =>
    rw [mergedBackIndices_none p hb] at ht
    exact absurd ht (List.not_mem_nil t)
  | some bp =>
    rw [mergedBackIndices_some p bp hb] at ht
    obtain ⟨i, hi, hne⟩ := mem_triangulate mergedBackEmit_mem ht
    refine ⟨⟨i, hi⟩, ?_, ?_⟩
    · intro c hceq
      have h1 : (mergedSynth p).gridF c ≠ -1 := by
        rw [hceq]
        exact hne
      have h2 : (mergedSynth p).gridB i ≠ -1 := by
        rw [hi]
        exact hne
      exact mergedSynth_disjoint p c i h1 h2 (by rw [hceq, hi])
    · exact triangulate_bounds (mergedSynth_ok p).2 mergedBackEmit_mem ht

/-- C5 witness: back triangle index 1 on the concrete two-sided 2×2 input is
a back vertex, not a front vertex, and is bounded by the total count 8. -/
theorem claim_c5_amended_witness :
    ((1 : ℤ) ∈ mergedBackIndices pC5) ∧
    ((∃ c, (mergedSynth pC5).gridB c = 1) ∧
      (∀ c, (mergedSynth pC5).gridF c ≠ 1) ∧
      0 ≤ (1 : ℤ) ∧ (1 : ℤ) < (mergedVertexCount pC5 : ℤ)) :=
  ⟨by decide, claim_c5_amended pC5 1 (by decide)⟩

set_option maxHeartbeats 1000000 in
/-- C6 counterexample: on the spec's example scenario (4×4 opaque white,
depth [0,85,170,255] per row, W = 4, planar, scale 1) the merged planar
variant's maximum vertex Z is 1/3 — not 1.0 within any reasonable tolerance:
the source halves the displacement (`· 0.5`) and tapers the boundary rows
and columns to 0, leaving 170 as the largest untapered depth. -/
theorem claim_c6_counterexample :
    mergedMaxZ pC6 = 1/3 ∧ ¬|mergedMaxZ pC6 - 1| < 1/2 := by
  have hmax : mergedMaxZ pC6 = 1/3 := by
    norm_num [mergedMaxZ, mergedSynth, synthFold, List.range, List.range.loop,
      mergedStep, pC6, guardedPush, pushVert, mergedFrontVis, mergedFrontVert,
      imgWhite, depthRamp, whiteOpaque, taperStrength, setAt, initState]
  refine ⟨hmax, ?_⟩
  rw [hmax, show |(1 : ℚ)/3 - 1| = 2/3 by rw [abs_of_nonpos] <;> norm_num]
  norm_num

set_option maxHeartbeats 1000000 in
/-- C6 amended: the example scenario yields exactly 16 vertices and 18
triangles (54 index entries), and the maximum Z among vertices equals
170/255 · 1.0 · 0.5 = 1/3. -/
theorem claim_c6_amended :
    mergedVertexCount pC6 = 16 ∧ (mergedIndices pC6).length = 3 * 18 ∧
    mergedMaxZ pC6 = 1/3 := by
  refine ⟨by decide, by decide, ?_⟩
  norm_num [mergedMaxZ, mergedSynth, synthFold, List.range, List.range.loop,
    mergedStep, pC6, guardedPush, pushVert, mergedFrontVis, mergedFrontVert,
    imgWhite, depthRamp, whiteOpaque, taperStrength, setAt, initState]

set_option maxHeartbeats 1000000 in
/-- C7 counterexample: on a 2×2 grid every cell lies on the UV boundary, so
its taper factor is 0; raising displacementScale from 1 to 2 leaves every
vertex's Z unchanged (at 0) although the sampled depth is 255 ≠ 0 —
contradicting "strictly increases ... unchanged only where depth is 0". -/
theorem claim_c7_counterexample :
    (depthFull 0 0).r = 255 ∧
    (mergedSynth ⟨2, 2, 1, 1, false, imgWhite, depthFull, none⟩).verts.map Vert.pz =
      (mergedSynth ⟨2, 2, 1, 2, false, imgWhite, depthFull, none⟩).verts.map Vert.pz ∧
    (mergedSynth ⟨2, 2, 1, 1, false, imgWhite, depthFull, none⟩).verts.map Vert.pz =
      [0, 0, 0, 0] := by
  have h1 : (mergedSynth ⟨2, 2, 1, 1, false, imgWhite, depthFull, none⟩).verts.map
      Vert.pz = [0, 0, 0, 0] := by
    norm_num [mergedSynth, synthFold, List.range, List.range.loop, mergedStep,
      guardedPush, pushVert, mergedFrontVis, mergedFrontVert, imgWhite,
      depthFull, whiteOpaque, taperStrength, setAt, initState]
  have h2 : (mergedSynth ⟨2, 2, 1, 2, false, imgWhite, depthFull, none⟩).verts.map
      Vert.pz = [0, 0, 0, 0] := by
    norm_num [mergedSynth, synthFold, List.range, List.range.loop, mergedStep,
      guardedPush, pushVert, mergedFrontVis, mergedFrontVert, imgWhite,
      depthFull, whiteOpaque, taperStrength, setAt, initState]
  exact ⟨rfl, by rw [h1, h2], h1⟩

/-- C7 amended: in planar mode, increasing displacementScale from s1 to s2
(0 < s1 < s2) leaves vertex count and triangle topology unchanged in both
planar paths, and the displaced Z behaves as follows.  Merged variant: every
vertex's buffer Z is rescaled by s2/s1 — |Z| strictly increases exactly
where Z ≠ 0 (sampled depth AND edge-taper factor both nonzero) and Z stays
unchanged where the depth or the taper factor is 0 (e.g. cells on the grid
boundary, whatever their depth).  Progressive variant
(`createMeshFromDataAsync`/`GeneratedMesh`): the buffer stores raw
normalized depth and is independent of the displacementScale argument, which
the host applies as the mesh's Z scale, so the applied displacement
scale·(depth/255) strictly increases for every cell with nonzero sampled
depth and is unchanged only where the depth is 0. -/
theorem claim_c7_amended :
    (∀ (w h : ℕ) (aspect : ℚ) (isTripo : Bool) (fColor fDepth : Img)
      (back : Option (Img × Img)) (s1 s2 : ℚ), 0 < s1 → s1 < s2 →
      mergedVertexCount ⟨w, h, aspect, s1, isTripo, fColor, fDepth, back⟩ =
        mergedVertexCount ⟨w, h, aspect, s2, isTripo, fColor, fDepth, back⟩ ∧
      mergedIndices ⟨w, h, aspect, s1, isTripo, fColor, fDepth, back⟩ =
        mergedIndices ⟨w, h, aspect, s2, isTripo, fColor, fDepth, back⟩ ∧
      List.Forall₂ (fun v1 v2 => v1.px = v2.px ∧ v1.py = v2.py ∧
          v2.pz = (s2 / s1) * v1.pz ∧ (v1.pz = 0 → v2.pz = 0) ∧
          (v1.pz ≠ 0 → |v1.pz| < |v2.pz|))
        (mergedSynth ⟨w, h, aspect, s1, isTripo, fColor, fDepth, back⟩).verts
        (mergedSynth ⟨w, h, aspect, s2, isTripo, fColor, fDepth, back⟩).verts) ∧
    (∀ (q : AsyncParams) (scale1 scale2 : ℚ),
      asyncCreate q scale1 = asyncCreate q scale2) ∧
    (∀ (q : AsyncParams) (s1 s2 : ℚ), 0 < s1 → s1 < s2 → ∀ k : ℕ,
      asyncDisplacedCellZ q s2 k = (s2 / s1) * asyncDisplacedCellZ q s1 k ∧
      ((q.depthImg ((k % asyncW q) * 2) ((k / asyncW q) * 2)).r ≠ 0 →
        |asyncDisplacedCellZ q s1 k| < |asyncDisplacedCellZ q s2 k|) ∧
      ((q.depthImg ((k % asyncW q) * 2) ((k / asyncW q) * 2)).r = 0 →
        asyncDisplacedCellZ q s1 k = asyncDisplacedCellZ q s2 k)) := by
  refine ⟨?_, fun q scale1 scale2 => rfl, ?_⟩
  · intro w h aspect isTripo fColor fDepth back s1 s2 h1 h2
    have hs : s1 ≠ 0 := ne_of_gt h1
    obtain ⟨hgF, hgB, hrel⟩ :=
      mergedSynth_scaled w h aspect isTripo fColor fDepth back s1 s2 hs
    refine ⟨List.Forall₂.length_eq hrel, ?_, ?_⟩
    · unfold mergedIndices mergedFrontIndices
      have hfr := @triangulate_congr w h
        (mergedSynth ⟨w, h, aspect, s1, isTripo, fColor, fDepth, back⟩).gridF
        (mergedSynth ⟨w, h, aspect, s2, isTripo, fColor, fDepth, back⟩).gridF
        (fun _ _ _ _ => true) mergedFrontEmit hgF
      rw [hfr]
      cases back with
      | none =>
        rw [mergedBackIndices_none _ rfl, mergedBackIndices_none _ rfl]
      | some bp =>
        rw [mergedBackIndices_some _ bp rfl, mergedBackIndices_some _ bp rfl]
        have hbk := @triangulate_congr w h
          (mergedSynth ⟨w, h, aspect, s1, isTripo, fColor, fDepth, some bp⟩).gridB
          (mergedSynth ⟨w, h, aspect, s2, isTripo, fColor, fDepth, some bp⟩).gridB
          (fun _ _ _ _ => true) mergedBackEmit hgB
        rw [hbk]
    · refine List.Forall₂.imp ?_ hrel
      rintro v1 v2 ⟨hpx, hpy, hpz, _⟩
      have hr1 : 1 < s2 / s1 := (one_lt_div h1).mpr h2
      refine ⟨hpx, hpy, hpz, ?_, ?_⟩
      · intro h0
        rw [hpz, h0, mul_zero]
      · intro h0
        rw [hpz, abs_mul]
        have habs : 0 < |v1.pz| := abs_pos.mpr h0
        calc |v1.pz| = 1 * |v1.pz| := (one_mul _).symm
          _ < |s2 / s1| * |v1.pz| := by
              apply mul_lt_mul_of_pos_right _ habs
              rw [abs_of_pos (lt_trans one_pos hr1)]
              exact hr1
  · intro q s1 s2 h1 h2 k
    have hs : s1 ≠ 0 := ne_of_gt h1
    have hpz : (asyncVert q k).pz =
        ((q.depthImg ((k % asyncW q) * 2) ((k / asyncW q) * 2)).r : ℚ) / 255 := rfl
    refine ⟨?_, ?_, ?_⟩
    · unfold asyncDisplacedCellZ
      field_simp
      ring
    · intro hd
      have hdpos : (0 : ℚ) < (asyncVert q k).pz := by
        rw [hpz]
        have h0 : 0 < (q.depthImg ((k % asyncW q) * 2) ((k / asyncW q) * 2)).r :=
          Nat.pos_of_ne_zero hd
        positivity
      unfold asyncDisplacedCellZ
      rw [abs_of_pos (mul_pos h1 hdpos),
        abs_of_pos (mul_pos (lt_trans h1 h2) hdpos)]
      exact mul_lt_mul_of_pos_right h2 hdpos
    · intro hd
      unfold asyncDisplacedCellZ
      rw [hpz, hd]
      norm_num

/-- C7 witness: the amended theorem at the concrete 2×2 boundary-only
merged input with scales 1 and 2, and at cell 0 of the opaque bright-depth
progressive input. -/
theorem claim_c7_amended_witness :
    ((0 : ℚ) < 1 ∧ (1 : ℚ) < 2) ∧
    (mergedVertexCount ⟨2, 2, 1, 1, false, imgWhite, depthFull, none⟩ =
       mergedVertexCount ⟨2, 2, 1, 2, false, imgWhite, depthFull, none⟩ ∧
     mergedIndices ⟨2, 2, 1, 1, false, imgWhite, depthFull, none⟩ =
       mergedIndices ⟨2, 2, 1, 2, false, imgWhite, depthFull, none⟩ ∧
     List.Forall₂ (fun v1 v2 => v1.px = v2.px ∧ v1.py = v2.py ∧
         v2.pz = ((2 : ℚ) / 1) * v1.pz ∧ (v1.pz = 0 → v2.pz = 0) ∧
         (v1.pz ≠ 0 → |v1.pz| < |v2.pz|))
       (mergedSynth ⟨2, 2, 1, 1, false, imgWhite, depthFull, none⟩).verts
       (mergedSynth ⟨2, 2, 1, 2, false, imgWhite, depthFull, none⟩).verts) ∧
    (asyncDisplacedCellZ pC7a 2 0 = ((2 : ℚ) / 1) * asyncDisplacedCellZ pC7a 1 0 ∧
     ((pC7a.depthImg ((0 % asyncW pC7a) * 2) ((0 / asyncW pC7a) * 2)).r ≠ 0 →
       |asyncDisplacedCellZ pC7a 1 0| < |asyncDisplacedCellZ pC7a 2 0|) ∧
     ((pC7a.depthImg ((0 % asyncW pC7a) * 2) ((0 / asyncW pC7a) * 2)).r = 0 →
       asyncDisplacedCellZ pC7a 1 0 = asyncDisplacedCellZ pC7a 2 0)) :=
  ⟨⟨by norm_num, by norm_num⟩,
   claim_c7_amended.1 2 2 1 false imgWhite depthFull none 1 2 (by norm_num)
     (by norm_num),
   claim_c7_amended.2.2 pC7a 1 2 (by norm_num) (by norm_num) 0⟩

set_option maxHeartbeats 2000000 in
/-- C8 counterexample: in the cylindrical variant the radius depends only on
the depth sample and the scale — on a 5×5 opaque grid of constant depth 128,
the boundary cell (0,2) (u = 0) and the center cell (2,2) (u = 1/2) receive
vertices with EQUAL squared radial displacement, so the boundary cell's
radial displacement is not smaller.  (Math.sin/Math.cos are instantiated
with the Pythagorean pair sinF = 0, cosF = 1.) -/
theorem claim_c8_counterexample :
    (volSynth pC8).gridF 10 = 10 ∧ (volSynth pC8).gridF 12 = 12 ∧
    sqRadial ((volSynth pC8).verts.getD 10 default) =
      sqRadial ((volSynth pC8).verts.getD 12 default) ∧
    ¬sqRadial ((volSynth pC8).verts.getD 10 default) <
      sqRadial ((volSynth pC8).verts.getD 12 default) := by
  have heq : sqRadial ((volSynth pC8).verts.getD 10 default) =
      sqRadial ((volSynth pC8).verts.getD 12 default) := by
    norm_num [sqRadial, volSynth, synthFold, List.range, List.range.loop,
      guardedPush, pushVert, volVis, volVert, volRadius, volThetaOverPi, pC8,
      imgWhite, whiteOpaque, setAt, initState, List.getD]
  exact ⟨by decide, by decide, heq, by rw [heq]; exact lt_irrefl _⟩

/-- C8 amended: in the cylindrical variant the radial displacement of a
vertex is determined by the cell's depth sample and the scale alone — the
squared distance from the vertical axis equals `volRadius²` whenever the
trig pair satisfies the Pythagorean law — so two cells with the same raw
depth value (for instance a UV-boundary cell and a UV-center cell) receive
EQUAL radial displacement: the cylindrical path applies no UV edge taper
(only the merged planar variant tapers near edges). -/
theorem claim_c8_amended (p : VolParams)
    (hpy : ∀ t, p.sinF t ^ 2 + p.cosF t ^ 2 = 1) (k1 k2 : ℕ)
    (hdep : (p.depthData (k1 % p.w) (k1 / p.w)).r =
      (p.depthData (k2 % p.w) (k2 / p.w)).r) :
    sqRadial (volVert p k1) = sqRadial (volVert p k2) ∧
    sqRadial (volVert p k1) =
      volRadius ((p.depthData (k1 % p.w) (k1 / p.w)).r) p.scale ^ 2 := by
  have key : ∀ k, sqRadial (volVert p k) =
      volRadius ((p.depthData (k % p.w) (k / p.w)).r) p.scale ^ 2 := by
    intro k
    have hp := hpy (volThetaOverPi (((k % p.w : ℕ) : ℚ) / ((p.w : ℚ) - 1)) p.isBack)
    unfold sqRadial volVert
    dsimp only
    linear_combination
      volRadius ((p.depthData (k % p.w) (k / p.w)).r) p.scale ^ 2 * hp
  refine ⟨?_, key k1⟩
  rw [key k1, key k2, hdep]

/-- C8 witness: the amended theorem at the concrete boundary cell (0,2) and
center cell (2,2) of the 5×5 constant-depth input. -/
theorem claim_c8_amended_witness :
    sqRadial (volVert pC8 10) = sqRadial (volVert pC8 12) ∧
    sqRadial (volVert pC8 10) =
      volRadius ((pC8.depthData (10 % pC8.w) (10 / pC8.w)).r) pC8.scale ^ 2 :=
  claim_c8_amended pC8 (fun t => by norm_num [pC8]) 10 12 (by decide)

/-- C9: loader failure behaviour, evaluated on the embedded promise wiring.
(1,2) If either front image fails to decode, `createMergedGeometry`'s
promise never settles — the `Promise.all` rejection has no handler, so the
result is `pending`, not `rejected` as the claim requires.  (3,4) The
volumetric variant rejects cleanly when either load fails.  (5) A back view
requested with an incomplete pair loads front-only geometry, whose back
triangle stream is empty — no dangling back-half reference. -/
theorem claim_c9_loader_behaviour :
    (∀ fd bi bd w h aspect scale tripo,
      mergedCreate .failed fd bi bd w h aspect scale tripo = .pending) ∧
    (∀ fc bi bd w h aspect scale tripo,
      mergedCreate (.ok fc) .failed bi bd w h aspect scale tripo = .pending) ∧
    (∀ img w h scale b sF cF,
      volCreate .failed img w h scale b sF cF = .rejected) ∧
    (∀ img w h scale b sF cF,
      volCreate img .failed w h scale b sF cF = .rejected) ∧
    (∀ fc fd br w h aspect scale tripo,
      mergedCreate (.ok fc) (.ok fd) (some br) none w h aspect scale tripo =
        .resolved ((mergedSynth ⟨w, h, aspect, scale, tripo, fc, fd, none⟩).verts,
          mergedIndices ⟨w, h, aspect, scale, tripo, fc, fd, none⟩) ∧
      mergedBackIndices ⟨w, h, aspect, scale, tripo, fc, fd, none⟩ = []) := by
  refine ⟨?_, ?_, ?_, ?_, ?_⟩
  · intro fd bi bd w h aspect scale tripo
    rfl
  · intro fc bi bd w h aspect scale tripo
    rfl
  · intro img w h scale b sF cF
    cases img <;> rfl
  · intro img w h scale b sF cF
    cases img <;> rfl
  · intro fc fd br w h aspect scale tripo
    exact ⟨rfl, rfl⟩

/-- C10 counterexample: for a 2-row grid the progressive variant's single
chunk processes both rows and reports `Math.round((2/2)*100) = 100` — an
integer percentage, not a value in [0,1], and not the fraction
processedRows/totalRows = 1. -/
theorem claim_c10_counterexample :
    asyncReports 2 = [100] ∧ ¬((100 : ℤ) ≤ 1) ∧ (2 : ℚ) / 2 = 1 := by
  refine ⟨?_, by decide, by norm_num⟩
  have h1 : asyncReports 2 = [jsRound ((2 : ℚ) / 2 * 100)] := by
    norm_num [asyncReports, asyncReportsAux]
  rw [h1, show ((2 : ℚ) / 2 * 100) = 100 by norm_num]
  norm_num [jsRound]

/-- C10 amended: every value the progressive variant reports to its
progress observer is the rounded percentage `Math.round(100·y/h)` at that
yield point — an integer in [0, 100], not a fraction in [0,1] — and the
final report is exactly 100. -/
theorem claim_c10_amended (h : ℕ) (hpos : 1 ≤ h) :
    (∀ v ∈ asyncReports h, 0 ≤ v ∧ v ≤ 100) ∧
    (asyncReports h).getLast? = some 100 :=
  ⟨fun v hv => asyncReportsAux_bounds hpos (h + 1) 0 v hv,
    asyncReportsAux_last hpos (h + 1) 0 (by omega) (by omega)⟩

/-- C10 witness: for the 2-row grid the single report 100 is bounded by
[0, 100] and is the final report. -/
theorem claim_c10_amended_witness :
    ((100 : ℤ) ∈ asyncReports 2) ∧ (0 ≤ (100 : ℤ) ∧ (100 : ℤ) ≤ 100) ∧
    (asyncReports 2).getLast? = some 100 := by
  have h2 : asyncReports 2 = [100] := by
    have h1 : asyncReports 2 = [jsRound ((2 : ℚ) / 2 * 100)] := by
      norm_num [asyncReports, asyncReportsAux]
    rw [h1, show ((2 : ℚ) / 2 * 100) = 100 by norm_num]
    norm_num [jsRound]
  refine ⟨by rw [h2]; exact List.mem_singleton.mpr rfl, ?_, (claim_c10_amended 2 (by norm_num)).2⟩
  exact (claim_c10_amended 2 (by norm_num)).1 100 (by rw [h2]; exact List.mem_singleton.mpr rfl)
